import Mathlib

/-!
Shallow embedding of the order/basket/inventory core of the marketplace
backend (Django project), translated from:
  backend/models.py            (Order, OrderItem, ProductInfo, OrderHistory)
  backend/signals.py           (log_order_status_change post_save receiver)
  backend/serializers.py       (BasketItemAddSerializer)
  backend/views/basket_views.py  (BasketAddView.post, BasketRemoveView.delete)
  backend/views/order_views.py   (CreateOrderFromBasketView.post,
                                  PlaceOrderView.post, UserOrdersView.get_queryset)
  backend/views/partners_views.py (PartnerConfirmOrderView.post)

Conventions of the embedding:
* The relational store is an explicit `DB` record of lists; each HTTP
  handler is a pure function `DB → request → Resp × DB`.  A Django
  `transaction.atomic` block that ends in an exception rolls the store
  back, so such paths return the *original* `DB`.
* `DecimalField` amounts (ProductInfo.quantity) and the integer
  `OrderItem.quantity` are both modelled as `Int`; the code only compares
  and subtracts them, which is exact in `Int`.  Note that
  `product_info.save()` does not run field validators, so the stored
  quantity can go negative, which `Int` reflects.
* Django ORM relation traversals (`order.ordered_items`,
  `item.product_info.shop`, ...) are embedded as lookups/joins over the
  `DB` lists; a foreign key always resolves, so joins use `Option.any`.
* Celery email dispatch (`.delay`) is enqueue-and-forget and carries no
  state observed by any claim; it is not modelled.
* `Order.objects.get_or_create(...)`/`.get(...)` are embedded as
  first-match lookups (`List.find?`); they coincide with the source as
  long as the row they target is unique, which the relevant theorems
  assume via the stated invariants.
* The `@receiver(post_save, sender=Order)` hook of backend/signals.py is
  embedded as firing on every `Order` save; the module that imports
  backend.signals (an `__init__`/app-config import site) is not among
  the provided files, and the embedding follows the documented
  signal-driven design in keeping it registered.
-/

/-- `Order.ORDER_STATUS_CHOICES` from backend/models.py. -/
inductive OrderStatus where
  | basket | new | confirmed | assembled | sent | delivered | canceled
deriving DecidableEq

/-- `OrderItem.ORDER_ITEM_STATUS_CHOICES` from backend/models.py. -/
inductive ItemStatus where
  | pending | confirmed | rejected
deriving DecidableEq

/-- `OrderHistory.ACTION_CHOICES` from backend/models.py. -/
inductive HistAction where
  | status_updated | item_rejected | item_confirmed
  | order_assembled | order_canceled | partner_action
deriving DecidableEq

/-- `Shop`: owning user and the open-for-orders flag `state`. -/
structure Shop where
  id : Nat
  userId : Nat
  state : Bool
deriving DecidableEq

/-- `ProductInfo`: a shop's stock record; only the fields the core reads. -/
structure ProductInfo where
  id : Nat
  shopId : Nat
  quantity : Int
deriving DecidableEq

/-- `Contact`: a delivery address owned by a user. -/
structure Contact where
  id : Nat
  userId : Nat
deriving DecidableEq

/-- `Order` from backend/models.py. -/
structure Order where
  id : Nat
  userId : Nat
  status : OrderStatus
  deliveryAddress : Option Nat
deriving DecidableEq

/-- `OrderItem` from backend/models.py. -/
structure OrderItem where
  id : Nat
  orderId : Nat
  productInfoId : Nat
  quantity : Int
  shopConfirmed : Bool
  status : ItemStatus
deriving DecidableEq

/-- One `OrderHistory` row (we keep the fields the claims inspect). -/
structure HistEntry where
  orderId : Nat
  action : HistAction
deriving DecidableEq

/-- The relational store.  `usersWithEmail` lists ids of users whose
`email` field is non-empty (read by `PlaceOrderView`). -/
structure DB where
  shops : List Shop
  products : List ProductInfo
  contacts : List Contact
  usersWithEmail : List Nat
  orders : List Order
  items : List OrderItem
  history : List HistEntry
  nextOrderId : Nat
  nextItemId : Nat
deriving DecidableEq

/-- HTTP outcome of a handler, carrying the payload parts the claims
inspect (`invalid_ids` for basket removal, the out-of-stock item ids for
partner confirmation).  `serverError` stands for an unhandled exception
propagating out of the view (HTTP 500). -/
inductive Resp where
  | ok
  | badRequest
  | badRequestIds (ids : List Nat)
  | badRequestShort (itemIds : List Nat)
  | notFound
  | forbidden
  | serverError
deriving DecidableEq

/-- `Order.objects.get(id=oid)` / first order with this id. -/
def findOrder (db : DB) (oid : Nat) : Option Order :=
  db.orders.find? (fun o => o.id = oid)

/-- `ProductInfo` row for an id. -/
def findProduct (db : DB) (pid : Nat) : Option ProductInfo :=
  db.products.find? (fun p => p.id = pid)

/-- `Shop.objects.get(user=request.user)`. -/
def findShopByUser (db : DB) (uid : Nat) : Option Shop :=
  db.shops.find? (fun s => s.userId = uid)

/-- `Order.objects.filter(user=u, status="basket").first()`. -/
def findBasket (db : DB) (uid : Nat) : Option Order :=
  db.orders.find? (fun o => o.userId = uid && o.status = OrderStatus.basket)

/-- `order.items` / `order.ordered_items`: the lines of one order. -/
def orderItemsOf (db : DB) (oid : Nat) : List OrderItem :=
  db.items.filter (fun it => it.orderId = oid)

/-- Whether an item's `product_info.shop` is the given shop
(the join `ordered_items.filter(product_info__shop=shop)`). -/
def itemOfShop (db : DB) (it : OrderItem) (sid : Nat) : Bool :=
  (findProduct db it.productInfoId).any (fun p => p.shopId = sid)

/-- `shop.state` of the shop owning a `ProductInfo`
(the serializer queryset filter `shop__state=True`). -/
def shopActive (db : DB) (sid : Nat) : Bool :=
  (db.shops.find? (fun s => s.id = sid)).any (fun s => s.state)

/-- Append one `OrderHistory` row (`OrderHistory.objects.create`). -/
def addHist (db : DB) (oid : Nat) (a : HistAction) : DB :=
  { db with history := db.history ++ [⟨oid, a⟩] }

/-- Write a new status on the order row (`order.status = s;
order.save(update_fields=["status"])`, before the post_save signal). -/
def setStatus (db : DB) (oid : Nat) (s : OrderStatus) : DB :=
  { db with orders := db.orders.map (fun o =>
      if o.id = oid then { o with status := s } else o) }

/-- `log_order_status_change` from backend/signals.py, fired post_save
with `"status" ∈ update_fields`.  On creation it records one
`status_updated` row.  On update it re-reads the order from the store —
which, post save, already holds the new value — and only logs when that
stored value differs from the instance's value. -/
def logOrderStatusChange (dbAfterSave : DB) (oid : Nat)
    (instStatus : OrderStatus) (created : Bool) : DB :=
  if created then addHist dbAfterSave oid HistAction.status_updated
  else
    match findOrder dbAfterSave oid with
    | none => dbAfterSave
    | some oldInstance =>
        if oldInstance.status ≠ instStatus then
          addHist dbAfterSave oid
            (if instStatus = OrderStatus.canceled then HistAction.order_canceled
             else if instStatus = OrderStatus.assembled then HistAction.order_assembled
             else HistAction.status_updated)
        else dbAfterSave

/-- `order.save(update_fields=["status"])` together with the post_save
signal it fires. -/
def saveStatus (db : DB) (oid : Nat) (s : OrderStatus) : DB :=
  logOrderStatusChange (setStatus db oid s) oid s false

/-- `Order.objects.get_or_create(user=u, status="basket",
defaults={"delivery_address": None})`; creation fires the post_save
signal with `created=True`. -/
def getOrCreateBasket (db : DB) (uid : Nat) : DB × Nat :=
  match findBasket db uid with
  | some o => (db, o.id)
  | none =>
      let oid := db.nextOrderId
      let db' := { db with
        orders := db.orders ++ [⟨oid, uid, OrderStatus.basket, none⟩],
        nextOrderId := db.nextOrderId + 1 }
      (logOrderStatusChange db' oid OrderStatus.basket true, oid)

/-- `OrderItem.objects.update_or_create(order=basket, product_info=p,
defaults={"quantity": q})`. -/
def updateOrCreateItem (db : DB) (oid pid : Nat) (qty : Int) : DB :=
  if db.items.any (fun it => it.orderId = oid && it.productInfoId = pid) then
    { db with items := db.items.map (fun it =>
        if it.orderId = oid && it.productInfoId = pid
        then { it with quantity := qty } else it) }
  else
    { db with
      items := db.items ++ [⟨db.nextItemId, oid, pid, qty, false, ItemStatus.pending⟩],
      nextItemId := db.nextItemId + 1 }

/-- `BasketItemAddSerializer` applied to one submitted line: the
`product_info_id` field resolves against the queryset
`ProductInfo.objects.filter(shop__state=True)`, `quantity` must be
≥ 1 (`min_value=1`), and `validate` rejects a quantity above the current
`product_info.quantity`.  Returns the resolved `ProductInfo` object. -/
def validateLine (db : DB) (pid : Nat) (qty : Int) : Option ProductInfo :=
  match findProduct db pid with
  | none => none
  | some p =>
      if shopActive db p.shopId && 1 ≤ qty && qty ≤ p.quantity
      then some p else none

/-- `BasketItemAddSerializer(data=items_data, many=True).is_valid()`:
every line must validate or the whole batch is invalid. -/
def validateBatch (db : DB) : List (Nat × Int) → Option (List (ProductInfo × Int))
  | [] => some []
  | (pid, qty) :: rest =>
      match validateLine db pid qty, validateBatch db rest with
      | some p, some vs => some ((p, qty) :: vs)
      | _, _ => none

/-- The `for item in serializer.validated_data` loop of
`BasketAddView.post`: re-checks stock and writes each line with
`update_or_create`.  A failing line raises `ValidationError`, which
rolls the transaction back to the pre-call store `db0`. -/
def basketAddLoop (db0 : DB) (db : DB) (oid : Nat) :
    List (ProductInfo × Int) → Resp × DB
  | [] => (Resp.ok, db)
  | (p, qty) :: rest =>
      if p.quantity < qty then (Resp.badRequest, db0)
      else basketAddLoop db0 (updateOrCreateItem db oid p.id qty) oid rest

/-- `BasketAddView.post`: serializer validation, then one transaction
that lazily creates the basket and writes every line. -/
def basketAdd (db : DB) (uid : Nat) (batch : List (Nat × Int)) : Resp × DB :=
  match validateBatch db batch with
  | none => (Resp.badRequest, db)
  | some vlines =>
      let created := getOrCreateBasket db uid
      basketAddLoop db created.1 created.2 vlines

/-- `BasketRemoveView.delete`: the ids must all resolve to lines of the
caller's basket (compared by *count*), else a 400 listing the ids not
found; on success the matching lines are physically deleted. -/
def basketRemove (db : DB) (uid : Nat) (ids : List Nat) : Resp × DB :=
  match findBasket db uid with
  | none => (Resp.notFound, db)
  | some basket =>
      let selected := db.items.filter
        (fun it => it.id ∈ ids && it.orderId = basket.id)
      if selected.length ≠ ids.length then
        let foundIds := selected.map (fun it => it.id)
        let notFound := ids.filter (fun i => i ∉ foundIds)
        (Resp.badRequestIds notFound, db)
      else
        let kept := db.items.filter
          (fun it => ¬(it.id ∈ ids && it.orderId = basket.id))
        (Resp.ok, { db with items := kept })

/-- `CreateOrderFromBasketView.post`: flips the caller's basket order
from "basket" to "new". -/
def createOrderFromBasket (db : DB) (uid : Nat) : Resp × DB :=
  match findBasket db uid with
  | none => (Resp.notFound, db)
  | some order =>
      if (orderItemsOf db order.id).isEmpty then (Resp.badRequest, db)
      else (Resp.ok, saveStatus db order.id OrderStatus.new)

/-- `PlaceOrderView.post`: attaches the contact and moves the order from
"new" to "confirmed" (`save(update_fields=["delivery_address","status"])`
fires the same post_save signal). -/
def placeOrder (db : DB) (uid : Nat)
    (orderId contactId : Option Nat) : Resp × DB :=
  match orderId with
  | none => (Resp.badRequest, db)
  | some oid =>
      match contactId with
      | none => (Resp.badRequest, db)
      | some cid =>
          match db.contacts.find? (fun c => c.id = cid && c.userId = uid) with
          | none => (Resp.notFound, db)
          | some _ =>
              match db.orders.find? (fun o =>
                  o.id = oid && o.userId = uid && o.status = OrderStatus.new) with
              | none => (Resp.notFound, db)
              | some order =>
                  if (orderItemsOf db order.id).isEmpty then (Resp.badRequest, db)
                  else if uid ∉ db.usersWithEmail then (Resp.badRequest, db)
                  else
                    let db' := { db with orders := db.orders.map (fun o =>
                      if o.id = order.id
                      then { o with deliveryAddress := some cid,
                                    status := OrderStatus.confirmed }
                      else o) }
                    (Resp.ok,
                     logOrderStatusChange db' order.id OrderStatus.confirmed false)

/-- `item.status = "rejected"; item.shop_confirmed = False;
item.save(update_fields=["status", "shop_confirmed"])`. -/
def markRejected (db : DB) (iid : Nat) : DB :=
  { db with items := db.items.map (fun it =>
      if it.id = iid
      then { it with status := ItemStatus.rejected, shopConfirmed := false }
      else it) }

/-- `PartnerConfirmOrderView._handle_rejected_items`: marks each line
rejected and logs an `item_rejected` row per line. -/
def handleRejectedItems (db : DB) (oid : Nat) (l : List OrderItem) : DB :=
  l.foldl (fun d it => addHist (markRejected d it.id) oid HistAction.item_rejected) db

/-- `product_info.quantity -= item.quantity;
product_info.save(update_fields=["quantity"])`. -/
def decProduct (db : DB) (pid : Nat) (q : Int) : DB :=
  { db with products := db.products.map (fun p =>
      if p.id = pid then { p with quantity := p.quantity - q } else p) }

/-- One iteration of the accepted-lines loop: stock decrement plus
`item.shop_confirmed = True; item.save(update_fields=["shop_confirmed"])`. -/
def confirmOne (db : DB) (it : OrderItem) : DB :=
  let d := decProduct db it.productInfoId it.quantity
  { d with items := d.items.map (fun x =>
      if x.id = it.id then { x with shopConfirmed := true } else x) }

/-- The mutation phase of `PartnerConfirmOrderView.post`, entered once
all its guards pass.  Faithful to the source, including:

* the single `_log_action(..., "item_confirmed", details={"item_id":
  item.id, ...})` call sits *after* (outside) the accepted-lines loop, so
  it references the loop variable `item`; when `confirmed_items` is
  empty, Python raises `UnboundLocalError`, the `@transaction.atomic`
  wrapper rolls everything back (hence the pre-call store `db` in that
  arm) and the response is a 500 — embedded as `(Resp.serverError, db)`;
* the final status recomputation over `ordered_items.exclude(status="rejected")`. -/
def partnerConfirmApply (db : DB) (oid : Nat)
    (rejectedItems confirmedItems : List OrderItem) : Resp × DB :=
  let db1 := addHist db oid HistAction.partner_action
  let db2 := if rejectedItems.isEmpty then db1
             else handleRejectedItems db1 oid rejectedItems
  let db3 := confirmedItems.foldl confirmOne db2
  match confirmedItems.getLast? with
  | none => (Resp.serverError, db)
  | some _ =>
      let db4 := addHist db3 oid HistAction.item_confirmed
      let remaining := (orderItemsOf db4 oid).filter
        (fun it => it.status ≠ ItemStatus.rejected)
      if remaining.isEmpty then
        (Resp.ok, addHist (saveStatus db4 oid OrderStatus.canceled)
          oid HistAction.order_canceled)
      else if remaining.all (fun it => it.shopConfirmed) then
        (Resp.ok, addHist (saveStatus db4 oid OrderStatus.assembled)
          oid HistAction.order_assembled)
      else (Resp.ok, db4)

/-- `PartnerConfirmOrderView.post`: the guards (order exists, the
caller's shop exists, order is in status "confirmed", the shop owns at
least one line of the order, and the stock guard over the lines the shop
is not rejecting — all before any write), then the mutation phase. -/
def partnerConfirmOrder (db : DB) (uid : Nat)
    (orderId : Option Nat) (rejectedIds : List Nat) : Resp × DB :=
  match orderId with
  | none => (Resp.badRequest, db)
  | some oid =>
      match findOrder db oid with
      | none => (Resp.notFound, db)
      | some order =>
          match findShopByUser db uid with
          | none => (Resp.notFound, db)
          | some shop =>
              if order.status ≠ OrderStatus.confirmed then (Resp.badRequest, db)
              else
                let shopItems := (orderItemsOf db oid).filter
                  (fun it => itemOfShop db it shop.id)
                if shopItems.isEmpty then (Resp.forbidden, db)
                else
                  let rejectedItems := shopItems.filter (fun it => it.id ∈ rejectedIds)
                  let confirmedItems := shopItems.filter (fun it => it.id ∉ rejectedIds)
                  let outOfStock := confirmedItems.filter (fun it =>
                    (findProduct db it.productInfoId).any (fun p => p.quantity < it.quantity))
                  if ¬outOfStock.isEmpty then
                    (Resp.badRequestShort (outOfStock.map (fun it => it.id)), db)
                  else partnerConfirmApply db oid rejectedItems confirmedItems

/-- The status keys of `Order.ORDER_STATUS_CHOICES` (dict keys the view
checks a query value against). -/
def statusKeys : List String :=
  ["basket", "new", "confirmed", "assembled", "sent", "delivered", "canceled"]

/-- The stored character value of a status. -/
def statusKey : OrderStatus → String
  | OrderStatus.basket => "basket"
  | OrderStatus.new => "new"
  | OrderStatus.confirmed => "confirmed"
  | OrderStatus.assembled => "assembled"
  | OrderStatus.sent => "sent"
  | OrderStatus.delivered => "delivered"
  | OrderStatus.canceled => "canceled"

/-- `UserOrdersView.get_queryset`: the caller's orders, optionally
filtered by the `status` query parameter.  `request.query_params.get`
yields `none` when absent and `some ""` when present but empty; the
view's `if status:` treats both as "no filter". -/
def userOrdersQueryset (db : DB) (uid : Nat) (statusParam : Option String) :
    List Order :=
  let base := db.orders.filter (fun o => o.userId = uid)
  match statusParam with
  | none => base
  | some s =>
      if s = "" then base
      else if s ∈ statusKeys then base.filter (fun o => statusKey o.status = s)
      else []

/-- `UserOrdersView.get`: serializes the queryset, always HTTP 200. -/
def userOrdersGet (db : DB) (uid : Nat) (statusParam : Option String) :
    Resp × List Order :=
  (Resp.ok, userOrdersQueryset db uid statusParam)

/-! ## Concrete stores used as evidence inputs -/

/-- Two shops: shop 10 (user 1) and shop 20 (user 2); order 1 of buyer 3
is "confirmed" with one line per shop; both stocks are 10. -/
def dbTwoShops : DB :=
  { shops := [⟨10, 1, true⟩, ⟨20, 2, true⟩],
    products := [⟨1, 10, 10⟩, ⟨2, 20, 10⟩],
    contacts := [], usersWithEmail := [3],
    orders := [⟨1, 3, OrderStatus.confirmed, some 7⟩],
    items := [⟨1, 1, 1, 3, false, ItemStatus.pending⟩,
              ⟨2, 1, 2, 5, false, ItemStatus.pending⟩],
    history := [⟨1, HistAction.status_updated⟩],
    nextOrderId := 2, nextItemId := 3 }

/-- One shop (user 1); order 1 of buyer 3 is "confirmed" with a single
line of that shop. -/
def dbOneShop : DB :=
  { shops := [⟨10, 1, true⟩],
    products := [⟨1, 10, 10⟩],
    contacts := [], usersWithEmail := [3],
    orders := [⟨1, 3, OrderStatus.confirmed, some 7⟩],
    items := [⟨1, 1, 1, 3, false, ItemStatus.pending⟩],
    history := [⟨1, HistAction.status_updated⟩],
    nextOrderId := 2, nextItemId := 2 }

/-- Sum of the quantities of the lines for product `pid` currently
marked `shop_confirmed=True`. -/
def confirmedQtySum (db : DB) (pid : Nat) : Int :=
  (db.items.filter (fun it => it.productInfoId = pid && it.shopConfirmed)).foldl
    (fun a it => a + it.quantity) 0

/-- C1: the conservation invariant fails on the code: on a two-shop
order, a second confirmation call by the same shop decrements the stock
of its (already `shop_confirmed`) line again.  Starting from stock 10
and one accepted line of quantity 3, two calls by shop user 1 both
return 200 and leave stock 4, i.e. a total decrement of 6, while the sum
of quantities on lines marked `shop_confirmed=True` for that
`product_info` is 3. -/
theorem partner_confirm_double_decrement :
    (partnerConfirmOrder dbTwoShops 1 (some 1) []).1 = Resp.ok ∧
    (partnerConfirmOrder (partnerConfirmOrder dbTwoShops 1 (some 1) []).2
        1 (some 1) []).1 = Resp.ok ∧
    (findProduct (partnerConfirmOrder (partnerConfirmOrder dbTwoShops 1 (some 1) []).2
        1 (some 1) []).2 1).map (fun p => p.quantity) = some 4 ∧
    confirmedQtySum (partnerConfirmOrder (partnerConfirmOrder dbTwoShops 1 (some 1) []).2
        1 (some 1) []).2 1 = 3 := by decide

/-- C2: a supplier that rejects every one of its own lines never reaches
the cancellation branch: the `item_confirmed` history write sits outside
the accepted-lines loop, references the empty loop's variable, and the
call dies with an unhandled exception (HTTP 500) rolling everything
back - the order stays "confirmed", no line is marked rejected, no
history is written, instead of becoming "canceled" with an
`order_canceled` entry. -/
theorem partner_confirm_reject_all_crashes :
    partnerConfirmOrder dbOneShop 1 (some 1) [1] = (Resp.serverError, dbOneShop) ∧
    (findOrder dbOneShop 1).map (fun o => o.status) = some OrderStatus.confirmed ∧
    dbOneShop.items.filter (fun it => it.status = ItemStatus.rejected) = [] ∧
    dbOneShop.history.filter (fun h => h.action = HistAction.order_canceled) = []
    := by decide

/-- A store whose single order (id 1, user 1) is in status "new". -/
def dbOneOrder : DB :=
  { shops := [⟨10, 2, true⟩],
    products := [⟨1, 10, 10⟩],
    contacts := [], usersWithEmail := [1],
    orders := [⟨1, 1, OrderStatus.new, none⟩],
    items := [⟨5, 1, 1, 2, false, ItemStatus.pending⟩],
    history := [⟨1, HistAction.status_updated⟩],
    nextOrderId := 2, nextItemId := 6 }

/-- C10 counterexample: the empty string is a status filter value that
is not one of the defined order statuses, yet `get_queryset` does not
return an empty list for it — `if status:` treats it as "no filter" and
every order of the caller comes back. -/
theorem user_orders_empty_filter_counterexample :
    "" ∉ statusKeys ∧
    userOrdersGet dbOneOrder 1 (some "") =
      (Resp.ok, [⟨1, 1, OrderStatus.new, none⟩]) ∧
    userOrdersQueryset dbOneOrder 1 (some "") ≠ [] := by decide

/-- C10 (amended): a *non-empty* status value outside the defined
statuses yields a 200 response with an empty list; a defined status
value yields exactly the caller's orders with that status; the empty
string is treated as an absent filter and yields all the caller's
orders. -/
theorem user_orders_status_filter (db : DB) (uid : Nat) (s : String) :
    (s ≠ "" → s ∉ statusKeys →
        userOrdersGet db uid (some s) = (Resp.ok, [])) ∧
    (s ∈ statusKeys →
        userOrdersGet db uid (some s) =
          (Resp.ok, db.orders.filter
            (fun o => o.userId = uid && statusKey o.status = s))) ∧
    userOrdersGet db uid (some "") =
      (Resp.ok, db.orders.filter (fun o => o.userId = uid)) := by
  refine ⟨?_, ?_, ?_⟩
  · intro hne hnot
    simp [userOrdersGet, userOrdersQueryset, hne, hnot]
  · intro hmem
    have hne : s ≠ "" := by
      intro he
      rw [he] at hmem
      simp [statusKeys] at hmem
    simp only [userOrdersGet, userOrdersQueryset, if_neg hne, if_pos hmem,
      Prod.mk.injEq, true_and]
    rw [List.filter_filter]
    exact List.filter_congr (fun x _ => by rw [Bool.and_comm])
  · simp [userOrdersGet, userOrdersQueryset]

/-- Witness for `user_orders_status_filter` at concrete inputs. -/
theorem user_orders_status_filter_witness :
    userOrdersGet dbOneOrder 1 (some "bogus") = (Resp.ok, []) ∧
    userOrdersGet dbOneOrder 1 (some "new") =
      (Resp.ok, dbOneOrder.orders.filter
        (fun o => o.userId = 1 && statusKey o.status = "new")) :=
  ⟨(user_orders_status_filter dbOneOrder 1 "bogus").1 (by decide) (by decide),
   (user_orders_status_filter dbOneOrder 1 "new").2.1 (by decide)⟩

/-- Whether `i` is the id of a line of order `bid`. -/
def idInOrder (db : DB) (bid i : Nat) : Bool :=
  db.items.any (fun it => it.id = i && it.orderId = bid)

/-- A store whose user 1 owns basket order 1 holding the single line
with id 5. -/
def dbBasketOne : DB :=
  { shops := [⟨10, 2, true⟩],
    products := [⟨1, 10, 10⟩],
    contacts := [], usersWithEmail := [1],
    orders := [⟨1, 1, OrderStatus.basket, none⟩],
    items := [⟨5, 1, 1, 2, false, ItemStatus.pending⟩],
    history := [⟨1, HistAction.status_updated⟩],
    nextOrderId := 2, nextItemId := 6 }

/-- C8 counterexample: submitting the same (valid) id twice.  Every
submitted id belongs to the caller's basket, yet the call fails —
`order_items.count() != len(item_ids)` — deletes nothing, and the
reported offending-id list is empty rather than "exactly the offending
ids". -/
theorem basket_remove_duplicate_ids_counterexample :
    (findBasket dbBasketOne 1).map (fun o => o.id) = some 1 ∧
    (∀ i ∈ [5, 5], idInOrder dbBasketOne 1 i = true) ∧
    basketRemove dbBasketOne 1 [5, 5] = (Resp.badRequestIds [], dbBasketOne)
    := by decide
/-- The lines of order `bid` whose ids are among `ids` (the queryset
`OrderItem.objects.filter(id__in=item_ids, order=basket)`) are exactly
as many as the submitted ids that do resolve, provided the submitted
ids are pairwise distinct and item ids are unique in the store. -/
theorem selected_items_length (db : DB) (bid : Nat) (ids : List Nat)
    (hids : ids.Nodup) (hitems : (db.items.map (fun it => it.id)).Nodup) :
    (db.items.filter (fun it => it.id ∈ ids && it.orderId = bid)).length
      = (ids.filter (fun i => idInOrder db bid i)).length := by
  have hsub : ((db.items.filter (fun it => it.id ∈ ids && it.orderId = bid)).map
      (fun it => it.id)).Sublist (db.items.map (fun it => it.id)) :=
    List.Sublist.map _ (List.filter_sublist _)
  have hL := List.Nodup.sublist hsub hitems
  have hR : (ids.filter (fun i => idInOrder db bid i)).Nodup :=
    hids.filter _
  have hmemiff : ∀ a,
      (a ∈ (db.items.filter (fun it => it.id ∈ ids && it.orderId = bid)).map
        (fun it => it.id))
      ↔ a ∈ ids.filter (fun i => idInOrder db bid i) := by
    intro a
    simp only [List.mem_map, List.mem_filter, idInOrder, List.any_eq_true,
      Bool.and_eq_true, decide_eq_true_eq]
    constructor
    · rintro ⟨it, ⟨hmem, hin, hord⟩, rfl⟩
      exact ⟨hin, it, hmem, rfl, hord⟩
    · rintro ⟨hin, it, hmem, hid, hord⟩
      exact ⟨it, ⟨hmem, hid ▸ hin, hord⟩, hid⟩
  have hperm := (List.perm_ext_iff_of_nodup hL hR).mpr hmemiff
  calc (db.items.filter (fun it => it.id ∈ ids && it.orderId = bid)).length
      = ((db.items.filter (fun it => it.id ∈ ids && it.orderId = bid)).map
          (fun it => it.id)).length := (List.length_map _ _).symm
    _ = _ := hperm.length_eq

/-- C8 (amended): provided the submitted ids are pairwise distinct (and
item ids are unique in the store): if any submitted id does not belong
to the caller's basket the call fails, deletes nothing, and reports
exactly the offending ids; if all ids belong, exactly those lines are
deleted.  (With duplicated ids the call can fail even though every id
belongs, as the counterexample shows.) -/
theorem basket_remove_all_or_nothing (db : DB) (uid : Nat) (ids : List Nat)
    (basket : Order) (hb : findBasket db uid = some basket)
    (hids : ids.Nodup) (hitems : (db.items.map (fun it => it.id)).Nodup) :
    ((∃ i ∈ ids, idInOrder db basket.id i = false) →
        basketRemove db uid ids =
          (Resp.badRequestIds (ids.filter (fun i => ¬ idInOrder db basket.id i)), db)) ∧
    ((∀ i ∈ ids, idInOrder db basket.id i = true) →
        basketRemove db uid ids = (Resp.ok,
          { db with items := db.items.filter (fun it => ¬(it.id ∈ ids && it.orderId = basket.id)) })) := by
  have hlen := selected_items_length db basket.id ids hids hitems
  constructor
  · rintro ⟨i, himem, hibad⟩
    have hne : (db.items.filter (fun it => it.id ∈ ids && it.orderId = basket.id)).length
        ≠ ids.length := by
      rw [hlen]
      intro heq
      have : ids.filter (fun i => idInOrder db basket.id i) = ids :=
        List.Sublist.eq_of_length (List.filter_sublist _) heq
      have := List.filter_eq_self.mp this i himem
      simp [hibad] at this
    simp only [basketRemove, hb, ne_eq, hne, not_false_eq_true, if_true,
      Prod.mk.injEq, and_true, Resp.badRequestIds.injEq]
    refine List.filter_congr (fun x hx => ?_)
    have : (x ∈ (db.items.filter (fun it => it.id ∈ ids && it.orderId = basket.id)).map
        (fun it => it.id)) ↔ idInOrder db basket.id x = true := by
      simp only [List.mem_map, List.mem_filter, idInOrder, List.any_eq_true,
        Bool.and_eq_true, decide_eq_true_eq]
      constructor
      · rintro ⟨it, ⟨hmem, _, hord⟩, rfl⟩
        exact ⟨it, hmem, rfl, hord⟩
      · rintro ⟨it, hmem, hid, hord⟩
        exact ⟨it, ⟨hmem, hid ▸ hx, hord⟩, hid⟩
    rw [decide_eq_decide, this]
  · intro hall
    have heq : (db.items.filter (fun it => it.id ∈ ids && it.orderId = basket.id)).length
        = ids.length := by
      rw [hlen, List.filter_eq_self.mpr hall]
    simp only [basketRemove, hb, ne_eq, heq, not_true_eq_false, if_false]

/-- Witness for `basket_remove_all_or_nothing` at concrete inputs: id 9
does not belong to basket 1 so `[5, 9]` fails reporting `[9]`; `[5]`
belongs entirely and deletes line 5. -/
theorem basket_remove_all_or_nothing_witness :
    basketRemove dbBasketOne 1 [5, 9] = (Resp.badRequestIds [9], dbBasketOne) ∧
    basketRemove dbBasketOne 1 [5] = (Resp.ok, { dbBasketOne with items := [] }) := by
  have h1 := (basket_remove_all_or_nothing dbBasketOne 1 [5, 9]
    ⟨1, 1, OrderStatus.basket, none⟩ (by decide) (by decide) (by decide)).1
    ⟨9, by decide, by decide⟩
  have e1 : ([5, 9].filter (fun i => ¬ idInOrder dbBasketOne 1 i)) = [9] := by decide
  rw [e1] at h1
  have h2 := (basket_remove_all_or_nothing dbBasketOne 1 [5]
    ⟨1, 1, OrderStatus.basket, none⟩ (by decide) (by decide) (by decide)).2
    (by decide)
  have e2 : dbBasketOne.items.filter
      (fun it => ¬(it.id ∈ [5] && it.orderId = 1)) = [] := by decide
  rw [e2] at h2
  exact ⟨h1, h2⟩

/-- The per-order status rewrite never changes ids. -/
theorem statusUpd_id (oid : Nat) (s : OrderStatus) (o : Order) :
    (if o.id = oid then { o with status := s } else o).id = o.id := by
  split <;> rfl

/-- Looking an order up after a status write. -/
theorem findOrder_setStatus (db : DB) (oid k : Nat) (s : OrderStatus) :
    findOrder (setStatus db oid s) k =
      (findOrder db k).map
        (fun o => if o.id = oid then { o with status := s } else o) := by
  unfold findOrder setStatus
  rw [List.find?_map]
  have hpred : ((fun o : Order => decide (o.id = k)) ∘ fun o =>
      if o.id = oid then { o with status := s } else o)
      = fun o : Order => decide (o.id = k) := by
    funext x
    simp only [Function.comp, statusUpd_id]
  rw [hpred]

/-- The post_save signal fired by `order.save(update_fields=["status"])`
re-reads the order from the store, which already holds the written
value, so the update branch of `log_order_status_change` never records
anything: saving a status is just the field write. -/
theorem saveStatus_eq_setStatus (db : DB) (oid : Nat) (s : OrderStatus) :
    saveStatus db oid s = setStatus db oid s := by
  unfold saveStatus logOrderStatusChange
  rw [if_neg (by simp), findOrder_setStatus]
  cases hfind : findOrder db oid with
  | none => rfl
  | some o =>
      have hid : o.id = oid := by
        have := List.find?_some hfind
        simpa using this
      simp [hid]

/-- At most one basket order per user: among the orders in status
"basket", owner ids are pairwise distinct. -/
def basketNodup (db : DB) : Prop :=
  ((db.orders.filter (fun o => o.status = OrderStatus.basket)).map
    (fun o => o.userId)).Nodup

/-- The facts `Order.objects.filter(user, status="basket").first()`
guarantees about its result. -/
theorem findBasket_props (db : DB) (uid : Nat) (o : Order)
    (h : findBasket db uid = some o) :
    o ∈ db.orders ∧ o.userId = uid ∧ o.status = OrderStatus.basket := by
  refine ⟨List.mem_of_find?_eq_some h, ?_⟩
  have := List.find?_some h
  simpa using this

/-- C7: create-from-basket returns 404 with the store untouched when the
caller has no basket; 400 with the store untouched when the basket has
no lines; and on success rewrites exactly the basket order's status to
"new", leaving items, history and products untouched — after which (the
caller having at most one basket) an immediate second call finds no
basket and fails 404. -/
theorem create_order_from_basket_spec (db : DB) (uid : Nat) :
    (findBasket db uid = none → createOrderFromBasket db uid = (Resp.notFound, db)) ∧
    (∀ o, findBasket db uid = some o → orderItemsOf db o.id = [] →
        createOrderFromBasket db uid = (Resp.badRequest, db)) ∧
    (∀ o, findBasket db uid = some o → orderItemsOf db o.id ≠ [] →
        (createOrderFromBasket db uid).1 = Resp.ok ∧
        (createOrderFromBasket db uid).2 = setStatus db o.id OrderStatus.new ∧
        (createOrderFromBasket db uid).2.items = db.items ∧
        (createOrderFromBasket db uid).2.history = db.history ∧
        (createOrderFromBasket db uid).2.products = db.products ∧
        (basketNodup db →
          createOrderFromBasket (createOrderFromBasket db uid).2 uid =
            (Resp.notFound, (createOrderFromBasket db uid).2))) := by
  refine ⟨?_, ?_, ?_⟩
  · intro h
    simp [createOrderFromBasket, h]
  · intro o ho hempty
    simp [createOrderFromBasket, ho, hempty]
  · intro o ho hne
    have hres : createOrderFromBasket db uid = (Resp.ok, setStatus db o.id OrderStatus.new) := by
      simp [createOrderFromBasket, ho, List.isEmpty_iff, hne, saveStatus_eq_setStatus]
    rw [hres]
    obtain ⟨homem, houser, hobasket⟩ := findBasket_props db uid o ho
    refine ⟨rfl, rfl, rfl, rfl, rfl, ?_⟩
    intro hnodup
    have hnone : findBasket (setStatus db o.id OrderStatus.new) uid = none := by
      unfold findBasket setStatus
      rw [List.find?_eq_none]
      intro x hx
      obtain ⟨y, hy, rfl⟩ := List.mem_map.mp hx
      by_cases hyid : y.id = o.id
      · simp [hyid]
      · simp only [if_neg hyid]
        simp only [Bool.and_eq_true, decide_eq_true_eq, not_and]
        intro hyuser hybasket
        have hymem : y ∈ db.orders.filter (fun z => z.status = OrderStatus.basket) :=
          List.mem_filter.mpr ⟨hy, by simp [hybasket]⟩
        have homem' : o ∈ db.orders.filter (fun z => z.status = OrderStatus.basket) :=
          List.mem_filter.mpr ⟨homem, by simp [hobasket]⟩
        have := List.inj_on_of_nodup_map hnodup hymem homem' (by rw [hyuser, houser])
        exact hyid (by rw [this])
    simp [createOrderFromBasket, hnone]

/-- C3: if some line of the acting shop that is not being rejected
requires more than the current `ProductInfo.quantity`, the whole
confirmation call answers 400 carrying a shortfall list that names the
line, and the store is returned unchanged: no stock decrement, no line
mutation, no status change, no history write. -/
theorem partner_confirm_stock_guard (db : DB) (uid oid : Nat) (rids : List Nat)
    (order : Order) (shop : Shop) (short : OrderItem)
    (ho : findOrder db oid = some order)
    (hs : findShopByUser db uid = some shop)
    (hst : order.status = OrderStatus.confirmed)
    (hmem : short ∈ (orderItemsOf db oid).filter (fun it => itemOfShop db it shop.id))
    (hnr : short.id ∉ rids)
    (hq : (findProduct db short.productInfoId).any
        (fun p => p.quantity < short.quantity) = true) :
    (partnerConfirmOrder db uid (some oid) rids).2 = db ∧
    ∃ ids, (partnerConfirmOrder db uid (some oid) rids).1 = Resp.badRequestShort ids
      ∧ short.id ∈ ids := by
  have hconf : short ∈ ((orderItemsOf db oid).filter
      (fun it => itemOfShop db it shop.id)).filter (fun it => it.id ∉ rids) :=
    List.mem_filter.mpr ⟨hmem, by simpa using hnr⟩
  have houtmem : short ∈ (((orderItemsOf db oid).filter
      (fun it => itemOfShop db it shop.id)).filter (fun it => it.id ∉ rids)).filter
      (fun it => (findProduct db it.productInfoId).any (fun p => p.quantity < it.quantity)) :=
    List.mem_filter.mpr ⟨hconf, hq⟩
  have hshopne : ¬ (((orderItemsOf db oid).filter
      (fun it => itemOfShop db it shop.id)).isEmpty = true) := by
    rw [List.isEmpty_iff]
    intro h
    rw [h] at hmem
    exact List.not_mem_nil _ hmem
  have houtne : ¬ ((((orderItemsOf db oid).filter
      (fun it => itemOfShop db it shop.id)).filter (fun it => it.id ∉ rids)).filter
      (fun it => (findProduct db it.productInfoId).any
        (fun p => p.quantity < it.quantity))).isEmpty = true := by
    rw [List.isEmpty_iff]
    intro h
    rw [h] at houtmem
    exact List.not_mem_nil _ houtmem
  simp only [partnerConfirmOrder, ho, hs, hst, ne_eq, not_true_eq_false, if_false,
    hshopne, houtne, not_false_eq_true, if_true]
  exact ⟨rfl, _, rfl, List.mem_map.mpr ⟨short, houtmem, rfl⟩⟩

/-- One shop (user 1) with stock 2 for product 1; order 1 asks for 3. -/
def dbShortStock : DB :=
  { shops := [⟨10, 1, true⟩],
    products := [⟨1, 10, 2⟩],
    contacts := [], usersWithEmail := [3],
    orders := [⟨1, 3, OrderStatus.confirmed, some 7⟩],
    items := [⟨1, 1, 1, 3, false, ItemStatus.pending⟩],
    history := [⟨1, HistAction.status_updated⟩],
    nextOrderId := 2, nextItemId := 2 }

/-- Witness for `partner_confirm_stock_guard` at a concrete input. -/
theorem partner_confirm_stock_guard_witness :
    (partnerConfirmOrder dbShortStock 1 (some 1) []).2 = dbShortStock ∧
    ∃ ids, (partnerConfirmOrder dbShortStock 1 (some 1) []).1 = Resp.badRequestShort ids
      ∧ 1 ∈ ids :=
  partner_confirm_stock_guard dbShortStock 1 1 []
    ⟨1, 3, OrderStatus.confirmed, some 7⟩ ⟨10, 1, true⟩
    ⟨1, 1, 1, 3, false, ItemStatus.pending⟩
    (by decide) (by decide) (by decide) (by decide) (by decide) (by decide)

/-- If one submitted line fails serializer validation, the whole batch
is invalid. -/
theorem validateBatch_eq_none_of_mem (db : DB) (pq : Nat × Int)
    (hfail : validateLine db pq.1 pq.2 = none) :
    ∀ batch : List (Nat × Int), pq ∈ batch → validateBatch db batch = none := by
  intro batch
  induction batch with
  | nil => intro h; cases h
  | cons hd tl ih =>
      intro hmem
      obtain ⟨a, b⟩ := hd
      rcases List.mem_cons.mp hmem with he | ht
      · subst he
        simp only [validateBatch, hfail]
      · rcases hline : validateLine db a b with _ | p <;>
          simp [validateBatch, hline, ih ht]

/-- If every submitted line satisfies the serializer's conditions, the
batch validates; the validated lines cannot fail the in-transaction
stock re-check, and they cover every submitted product id. -/
theorem validateBatch_some_of_all (db : DB) (batch : List (Nat × Int))
    (h : ∀ pq ∈ batch, ∃ p, findProduct db pq.1 = some p ∧
        shopActive db p.shopId = true ∧ 1 ≤ pq.2 ∧ pq.2 ≤ p.quantity) :
    ∃ vs, validateBatch db batch = some vs ∧
      (∀ pv ∈ vs, ¬(pv.1.quantity < pv.2)) ∧
      (∀ pq ∈ batch, ∃ pv ∈ vs, pv.1.id = pq.1) := by
  induction batch with
  | nil => exact ⟨[], rfl, by simp, by simp⟩
  | cons hd tl ih =>
      obtain ⟨p, hp, hact, h1, h2⟩ := h hd (List.mem_cons_self _ _)
      have hpid : p.id = hd.1 := by
        have := List.find?_some hp
        simpa using this
      have hline : validateLine db hd.1 hd.2 = some p := by
        unfold validateLine
        rw [hp]
        simp [hact, h1, h2]
      obtain ⟨vs, hvs, hok, hcov⟩ := ih (fun pq hm => h pq (List.mem_cons_of_mem _ hm))
      refine ⟨(p, hd.2) :: vs, ?_, ?_, ?_⟩
      · obtain ⟨a, b⟩ := hd
        simp only [validateBatch, hline, hvs]
      · intro pv hm
        rcases List.mem_cons.mp hm with he | ht
        · rw [he]
          exact not_lt.mpr h2
        · exact hok pv ht
      · intro pq hm
        rcases List.mem_cons.mp hm with he | ht
        · exact ⟨(p, hd.2), List.mem_cons_self _ _, by rw [hpid, he]⟩
        · obtain ⟨pv, hpv, hpe⟩ := hcov pq ht
          exact ⟨pv, List.mem_cons_of_mem _ hpv, hpe⟩

/-- `update_or_create` leaves the order table untouched. -/
theorem updateOrCreateItem_orders (db : DB) (oid pid : Nat) (qty : Int) :
    (updateOrCreateItem db oid pid qty).orders = db.orders := by
  unfold updateOrCreateItem
  split <;> rfl

/-- After `update_or_create(order=oid, product_info=pid, ...)` the store
holds a line for that (order, product) pair. -/
theorem updateOrCreateItem_adds (db : DB) (oid pid : Nat) (qty : Int) :
    ∃ it ∈ (updateOrCreateItem db oid pid qty).items,
      it.orderId = oid ∧ it.productInfoId = pid := by
  unfold updateOrCreateItem
  by_cases h : db.items.any (fun it => it.orderId = oid && it.productInfoId = pid) = true
  · rw [if_pos h]
    obtain ⟨it0, hmem, hp⟩ := List.any_eq_true.mp h
    have hc : (it0.orderId = oid && it0.productInfoId = pid) = true := hp
    simp only [Bool.and_eq_true, decide_eq_true_eq] at hp
    exact ⟨{it0 with quantity := qty},
      List.mem_map.mpr ⟨it0, hmem, by rw [if_pos hc]⟩, hp.1, hp.2⟩
  · rw [if_neg h]
    exact ⟨⟨db.nextItemId, oid, pid, qty, false, ItemStatus.pending⟩,
      List.mem_append.mpr (Or.inr (List.mem_singleton.mpr rfl)), rfl, rfl⟩

/-- `update_or_create` never removes an existing (order, product) pair. -/
theorem updateOrCreateItem_keeps (db : DB) (oid pid : Nat) (qty : Int)
    (k₁ k₂ : Nat) (h : ∃ it ∈ db.items, it.orderId = k₁ ∧ it.productInfoId = k₂) :
    ∃ it ∈ (updateOrCreateItem db oid pid qty).items,
      it.orderId = k₁ ∧ it.productInfoId = k₂ := by
  obtain ⟨it0, hmem, h1, h2⟩ := h
  unfold updateOrCreateItem
  by_cases hb : db.items.any (fun it => it.orderId = oid && it.productInfoId = pid) = true
  · rw [if_pos hb]
    by_cases hc : (it0.orderId = oid && it0.productInfoId = pid) = true
    · exact ⟨{it0 with quantity := qty},
        List.mem_map.mpr ⟨it0, hmem, by rw [if_pos hc]⟩, h1, h2⟩
    · exact ⟨it0, List.mem_map.mpr ⟨it0, hmem, by rw [if_neg hc]⟩, h1, h2⟩
  · rw [if_neg hb]
    exact ⟨it0, List.mem_append.mpr (Or.inl hmem), h1, h2⟩

/-- The write loop of `BasketAddView.post` on lines that all pass the
stock re-check: succeeds, leaves orders untouched, keeps every existing
(order, product) line and establishes one for each written line. -/
theorem basketAddLoop_ok (db0 : DB) (oid : Nat) (vs : List (ProductInfo × Int)) :
    ∀ db : DB, (∀ pv ∈ vs, ¬(pv.1.quantity < pv.2)) →
    (basketAddLoop db0 db oid vs).1 = Resp.ok ∧
    (basketAddLoop db0 db oid vs).2.orders = db.orders ∧
    (∀ k₁ k₂ : Nat, (∃ it ∈ db.items, it.orderId = k₁ ∧ it.productInfoId = k₂) →
       ∃ it ∈ (basketAddLoop db0 db oid vs).2.items,
         it.orderId = k₁ ∧ it.productInfoId = k₂) ∧
    (∀ pv ∈ vs, ∃ it ∈ (basketAddLoop db0 db oid vs).2.items,
       it.orderId = oid ∧ it.productInfoId = pv.1.id) := by
  induction vs with
  | nil =>
      intro db _
      exact ⟨rfl, rfl, fun k₁ k₂ h => h, fun pv h => absurd h (List.not_mem_nil _)⟩
  | cons hd tl ih =>
      intro db hok
      obtain ⟨p, q⟩ := hd
      have hhd : ¬(p.quantity < q) := hok (p, q) (List.mem_cons_self _ _)
      have htl : ∀ pv ∈ tl, ¬(pv.1.quantity < pv.2) :=
        fun pv h => hok pv (List.mem_cons_of_mem _ h)
      have hloop : basketAddLoop db0 db oid ((p, q) :: tl)
          = basketAddLoop db0 (updateOrCreateItem db oid p.id q) oid tl := by
        show (if p.quantity < q then (Resp.badRequest, db0)
          else basketAddLoop db0 (updateOrCreateItem db oid p.id q) oid tl) = _
        rw [if_neg hhd]
      obtain ⟨ih1, ih2, ih3, ih4⟩ := ih (updateOrCreateItem db oid p.id q) htl
      refine ⟨by rw [hloop]; exact ih1, ?_, ?_, ?_⟩
      · rw [hloop, ih2, updateOrCreateItem_orders]
      · intro k₁ k₂ h
        rw [hloop]
        exact ih3 k₁ k₂ (updateOrCreateItem_keeps db oid p.id q k₁ k₂ h)
      · intro pv hpv
        rw [hloop]
        rcases List.mem_cons.mp hpv with he | ht
        · rw [he]
          exact ih3 oid p.id (updateOrCreateItem_adds db oid p.id q)
        · exact ih4 pv ht

/-- `get_or_create` of the basket: afterwards an order with the returned
id exists, owned by the caller, in status "basket"; lines are untouched. -/
theorem getOrCreateBasket_spec (db : DB) (uid : Nat) :
    (∃ o ∈ (getOrCreateBasket db uid).1.orders,
       o.id = (getOrCreateBasket db uid).2 ∧ o.userId = uid ∧
       o.status = OrderStatus.basket) ∧
    (getOrCreateBasket db uid).1.items = db.items := by
  unfold getOrCreateBasket
  cases h : findBasket db uid with
  | some o =>
      obtain ⟨hm, hu, hs⟩ := findBasket_props db uid o h
      exact ⟨⟨o, hm, rfl, hu, hs⟩, rfl⟩
  | none =>
      refine ⟨⟨⟨db.nextOrderId, uid, OrderStatus.basket, none⟩, ?_, rfl, rfl, rfl⟩, rfl⟩
      simp [logOrderStatusChange, addHist]

/-- C4: basket add is all-or-nothing.  If any submitted line asks for
more than the available `ProductInfo.quantity`, the call answers 400 and
the store is returned unchanged — no line written, no basket created.
If every line passes validation, the call succeeds and every submitted
product id ends up as a line of the caller's basket order. -/
theorem basket_add_all_or_nothing (db : DB) (uid : Nat) (batch : List (Nat × Int)) :
    ((∃ pq ∈ batch, ∃ p, findProduct db pq.1 = some p ∧ p.quantity < pq.2) →
        basketAdd db uid batch = (Resp.badRequest, db)) ∧
    ((∀ pq ∈ batch, ∃ p, findProduct db pq.1 = some p ∧
          shopActive db p.shopId = true ∧ 1 ≤ pq.2 ∧ pq.2 ≤ p.quantity) →
        (basketAdd db uid batch).1 = Resp.ok ∧
        ∃ basket ∈ (basketAdd db uid batch).2.orders,
          basket.userId = uid ∧ basket.status = OrderStatus.basket ∧
          ∀ pq ∈ batch, ∃ it ∈ (basketAdd db uid batch).2.items,
            it.orderId = basket.id ∧ it.productInfoId = pq.1) := by
  constructor
  · rintro ⟨pq, hmem, p, hp, hover⟩
    have hnle : ¬(pq.2 ≤ p.quantity) := not_le.mpr hover
    have hline : validateLine db pq.1 pq.2 = none := by
      unfold validateLine
      rw [hp]
      simp [hnle]
    have hnone := validateBatch_eq_none_of_mem db pq hline batch hmem
    simp [basketAdd, hnone]
  · intro hall
    obtain ⟨vs, hvs, hok, hcov⟩ := validateBatch_some_of_all db batch hall
    obtain ⟨⟨bo, hbomem, hboid, hbouser, hbostatus⟩, _⟩ := getOrCreateBasket_spec db uid
    obtain ⟨l1, l2, l3, l4⟩ := basketAddLoop_ok db (getOrCreateBasket db uid).2 vs
      (getOrCreateBasket db uid).1 hok
    have hfun : basketAdd db uid batch
        = basketAddLoop db (getOrCreateBasket db uid).1 (getOrCreateBasket db uid).2 vs := by
      simp [basketAdd, hvs]
    refine ⟨by rw [hfun]; exact l1, bo, ?_, hbouser, hbostatus, ?_⟩
    · rw [hfun, l2]
      exact hbomem
    · intro pq hpq
      obtain ⟨pv, hpv, hpid⟩ := hcov pq hpq
      rw [hfun]
      obtain ⟨it, hitmem, hito, hitp⟩ := l4 pv hpv
      exact ⟨it, hitmem, by rw [hito, hboid], by rw [hitp, hpid]⟩

/-- Witness for `basket_add_all_or_nothing` at concrete inputs: asking
for 11 of a stock of 10 fails atomically; asking for 5 succeeds. -/
theorem basket_add_all_or_nothing_witness :
    basketAdd dbBasketOne 1 [(1, 11)] = (Resp.badRequest, dbBasketOne) ∧
    (basketAdd dbBasketOne 1 [(1, 5)]).1 = Resp.ok := by
  constructor
  · exact (basket_add_all_or_nothing dbBasketOne 1 [(1, 11)]).1
      ⟨(1, 11), by decide, ⟨1, 10, 10⟩, by decide, by decide⟩
  · refine ((basket_add_all_or_nothing dbBasketOne 1 [(1, 5)]).2 ?_).1
    intro pq hpq
    rcases List.mem_singleton.mp hpq with rfl
    exact ⟨⟨1, 10, 10⟩, by decide, by decide, by decide, by decide⟩

/-- Witness for `create_order_from_basket_spec` at a concrete input:
user 1's basket (order 1, one line) flips to "new" and a second call
finds no basket. -/
theorem create_order_from_basket_witness :
    (createOrderFromBasket dbBasketOne 1).1 = Resp.ok ∧
    createOrderFromBasket (createOrderFromBasket dbBasketOne 1).2 1 =
      (Resp.notFound, (createOrderFromBasket dbBasketOne 1).2) := by
  have h := (create_order_from_basket_spec dbBasketOne 1).2.2
    ⟨1, 1, OrderStatus.basket, none⟩ (by decide) (by decide)
  exact ⟨h.1, h.2.2.2.2.2 (by unfold basketNodup; decide)⟩

/-- The (order, product_info) keys of all lines in the store. -/
def itemKeys (db : DB) : List (Nat × Nat) :=
  db.items.map (fun it => (it.orderId, it.productInfoId))

/-- The unique (order, product_info) constraint of `OrderItem.Meta`:
no two lines share an (order, product_info) key. -/
def uniqueOrderProduct (db : DB) : Prop := (itemKeys db).Nodup

/-- A per-line rewrite that keeps the key leaves `itemKeys` unchanged. -/
theorem itemKeys_map (db : DB) (f : OrderItem → OrderItem)
    (hf : ∀ it, (f it).orderId = it.orderId ∧ (f it).productInfoId = it.productInfoId) :
    itemKeys { db with items := db.items.map f } = itemKeys db := by
  unfold itemKeys
  rw [List.map_map]
  congr 1
  funext it
  simp [Function.comp, (hf it).1, (hf it).2]

/-- `markRejected` rewrites status fields only. -/
theorem markRejected_frame (db : DB) (iid : Nat) :
    (markRejected db iid).orders = db.orders ∧
    (markRejected db iid).history = db.history ∧
    (markRejected db iid).nextOrderId = db.nextOrderId ∧
    itemKeys (markRejected db iid) = itemKeys db :=
  ⟨rfl, rfl, rfl, itemKeys_map db _ (fun it => by split <;> exact ⟨rfl, rfl⟩)⟩

/-- `confirmOne` rewrites a stock figure and a flag only. -/
theorem confirmOne_frame (db : DB) (it : OrderItem) :
    (confirmOne db it).orders = db.orders ∧
    (confirmOne db it).history = db.history ∧
    (confirmOne db it).nextOrderId = db.nextOrderId ∧
    itemKeys (confirmOne db it) = itemKeys db := by
  refine ⟨rfl, rfl, rfl, ?_⟩
  unfold confirmOne decProduct
  exact itemKeys_map db _ (fun x => by split <;> exact ⟨rfl, rfl⟩)

/-- The accepted-lines loop leaves orders, history and keys unchanged. -/
theorem confirmFold_frame (l : List OrderItem) : ∀ db : DB,
    (l.foldl confirmOne db).orders = db.orders ∧
    (l.foldl confirmOne db).history = db.history ∧
    (l.foldl confirmOne db).nextOrderId = db.nextOrderId ∧
    itemKeys (l.foldl confirmOne db) = itemKeys db := by
  induction l with
  | nil => exact fun db => ⟨rfl, rfl, rfl, rfl⟩
  | cons hd tl ih =>
      intro db
      obtain ⟨h1, h2, h3, h4⟩ := ih (confirmOne db hd)
      obtain ⟨g1, g2, g3, g4⟩ := confirmOne_frame db hd
      exact ⟨h1.trans g1, h2.trans g2, h3.trans g3, h4.trans g4⟩

/-- `_handle_rejected_items`: orders and keys unchanged; the ledger gains
only `item_rejected` rows for the target order. -/
theorem handleRejected_frame (oid : Nat) (l : List OrderItem) : ∀ db : DB,
    (handleRejectedItems db oid l).orders = db.orders ∧
    (handleRejectedItems db oid l).nextOrderId = db.nextOrderId ∧
    itemKeys (handleRejectedItems db oid l) = itemKeys db ∧
    ∃ tail : List HistEntry,
      (handleRejectedItems db oid l).history = db.history ++ tail ∧
      ∀ e ∈ tail, e.orderId = oid ∧ e.action = HistAction.item_rejected := by
  induction l with
  | nil => exact fun db => ⟨rfl, rfl, rfl, [], (List.append_nil _).symm, by simp⟩
  | cons hd tl ih =>
      intro db
      have hstep : handleRejectedItems db oid (hd :: tl)
          = handleRejectedItems (addHist (markRejected db hd.id) oid
              HistAction.item_rejected) oid tl := rfl
      obtain ⟨h1, h2, h3, ⟨tail, htail, hall⟩⟩ :=
        ih (addHist (markRejected db hd.id) oid HistAction.item_rejected)
      obtain ⟨m1, m2, m3, m4⟩ := markRejected_frame db hd.id
      rw [hstep]
      refine ⟨h1.trans m1, h2.trans m3, h3.trans m4, ⟨oid, HistAction.item_rejected⟩ :: tail, ?_, ?_⟩
      · rw [htail]
        show (markRejected db hd.id).history ++ [⟨oid, HistAction.item_rejected⟩] ++ tail = _
        rw [m2, List.append_assoc]
        rfl
      · intro e he
        rcases List.mem_cons.mp he with he' | he'
        · rw [he']
          exact ⟨rfl, rfl⟩
        · exact hall e he'

/-- `update_or_create` touches lines only. -/
theorem updateOrCreateItem_frame (db : DB) (oid pid : Nat) (qty : Int) :
    (updateOrCreateItem db oid pid qty).orders = db.orders ∧
    (updateOrCreateItem db oid pid qty).history = db.history ∧
    (updateOrCreateItem db oid pid qty).nextOrderId = db.nextOrderId := by
  unfold updateOrCreateItem
  split <;> exact ⟨rfl, rfl, rfl⟩

/-- The basket write loop either rolls back to the pre-call store or
changes lines only. -/
theorem basketAddLoop_frame (db0 : DB) (oid : Nat) (vs : List (ProductInfo × Int)) :
    ∀ db : DB,
    (basketAddLoop db0 db oid vs).2 = db0 ∨
    ((basketAddLoop db0 db oid vs).2.orders = db.orders ∧
     (basketAddLoop db0 db oid vs).2.history = db.history ∧
     (basketAddLoop db0 db oid vs).2.nextOrderId = db.nextOrderId) := by
  induction vs with
  | nil => exact fun db => Or.inr ⟨rfl, rfl, rfl⟩
  | cons hd tl ih =>
      intro db
      obtain ⟨p, q⟩ := hd
      have hred : basketAddLoop db0 db oid ((p, q) :: tl)
          = if p.quantity < q then (Resp.badRequest, db0)
            else basketAddLoop db0 (updateOrCreateItem db oid p.id q) oid tl := rfl
      rw [hred]
      by_cases hc : p.quantity < q
      · rw [if_pos hc]
        exact Or.inl rfl
      · rw [if_neg hc]
        rcases ih (updateOrCreateItem db oid p.id q) with h | ⟨h1, h2, h3⟩
        · exact Or.inl h
        · obtain ⟨u1, u2, u3⟩ := updateOrCreateItem_frame db oid p.id q
          exact Or.inr ⟨h1.trans u1, h2.trans u2, h3.trans u3⟩

/-- `BasketRemoveView.delete` touches lines only. -/
theorem basketRemove_frame (db : DB) (uid : Nat) (ids : List Nat) :
    (basketRemove db uid ids).2.orders = db.orders ∧
    (basketRemove db uid ids).2.history = db.history ∧
    (basketRemove db uid ids).2.nextOrderId = db.nextOrderId := by
  unfold basketRemove
  cases h : findBasket db uid with
  | none => exact ⟨rfl, rfl, rfl⟩
  | some basket =>
      dsimp only
      split
      · exact ⟨rfl, rfl, rfl⟩
      · exact ⟨rfl, rfl, rfl⟩

/-- Order lookups commute with id-preserving rewrites of the order table. -/
theorem findOrder_map (db : DB) (f : Order → Order) (k : Nat)
    (hf : ∀ o, (f o).id = o.id) :
    findOrder { db with orders := db.orders.map f } k = (findOrder db k).map f := by
  unfold findOrder
  show List.find? _ (db.orders.map f) = _
  rw [List.find?_map]
  have hpred : ((fun o : Order => decide (o.id = k)) ∘ f)
      = fun o : Order => decide (o.id = k) := by
    funext x
    simp [Function.comp, hf x]
  rw [hpred]

/-- If every order the post_save re-read can return already carries the
written status, `log_order_status_change` records nothing. -/
theorem logNoop_of_found (db : DB) (oid : Nat) (s : OrderStatus)
    (h : ∀ x, findOrder db oid = some x → x.status = s) :
    logOrderStatusChange db oid s false = db := by
  unfold logOrderStatusChange
  rw [if_neg (by simp)]
  cases hf : findOrder db oid with
  | none => rfl
  | some x =>
      have hs := h x hf
      simp [hs]

/-- `CreateOrderFromBasketView.post` either leaves the store unchanged
or rewrites its basket order's status to "new". -/
theorem createOrder_cases (db : DB) (uid : Nat) :
    (createOrderFromBasket db uid).2 = db ∨
    ∃ o, findBasket db uid = some o ∧
      (createOrderFromBasket db uid).2 = setStatus db o.id OrderStatus.new := by
  unfold createOrderFromBasket
  cases h : findBasket db uid with
  | none => exact Or.inl rfl
  | some o =>
      dsimp only
      by_cases he : (orderItemsOf db o.id).isEmpty = true
      · rw [if_pos he]
        exact Or.inl rfl
      · rw [if_neg he]
        exact Or.inr ⟨o, rfl, saveStatus_eq_setStatus db o.id OrderStatus.new⟩

/-- `PlaceOrderView.post` either leaves the store unchanged or rewrites
one "new" order of the caller to "confirmed" with a delivery address
(the post_save signal logging nothing). -/
theorem placeOrder_cases (db : DB) (uid : Nat) (oids cids : Option Nat) :
    (placeOrder db uid oids cids).2 = db ∨
    ∃ order cid, order ∈ db.orders ∧ order.status = OrderStatus.new ∧
      (placeOrder db uid oids cids).2 =
        { db with orders := db.orders.map (fun o =>
            if o.id = order.id
            then { o with deliveryAddress := some cid,
                          status := OrderStatus.confirmed }
            else o) } := by
  unfold placeOrder
  cases oids with
  | none => exact Or.inl rfl
  | some oid =>
      cases cids with
      | none => exact Or.inl rfl
      | some cid =>
          dsimp only
          cases hc : db.contacts.find? (fun c => c.id = cid && c.userId = uid) with
          | none => exact Or.inl rfl
          | some c =>
              dsimp only
              cases hord : db.orders.find? (fun o =>
                  o.id = oid && o.userId = uid && o.status = OrderStatus.new) with
              | none => exact Or.inl rfl
              | some order =>
                  dsimp only
                  by_cases he : (orderItemsOf db order.id).isEmpty = true
                  · rw [if_pos he]
                    exact Or.inl rfl
                  · rw [if_neg he]
                    by_cases hm : uid ∉ db.usersWithEmail
                    · rw [if_pos hm]
                      exact Or.inl rfl
                    · rw [if_neg hm]
                      refine Or.inr ⟨order, cid, List.mem_of_find?_eq_some hord, ?_, ?_⟩
                      · have := List.find?_some hord
                        simp only [Bool.and_eq_true, decide_eq_true_eq] at this
                        exact this.2
                      · show logOrderStatusChange _ order.id OrderStatus.confirmed false = _
                        refine logNoop_of_found _ order.id OrderStatus.confirmed ?_
                        intro x hx
                        rw [findOrder_map db _ order.id (fun o => by split <;> rfl)] at hx
                        cases hf : findOrder db order.id with
                        | none => rw [hf] at hx; cases hx
                        | some y =>
                            rw [hf] at hx
                            have hyid : y.id = order.id := by
                              have := List.find?_some hf
                              simpa using this
                            simp only [Option.map_some'] at hx
                            rw [if_pos hyid] at hx
                            injection hx with hx
                            rw [← hx]

/-- Shape of the mutation phase: it either rolls back, or produces an
intermediate store `db4` that differs from `db` only in lines' fields,
stock figures and a ledger tail of non-terminal, non-`status_updated`
rows for the target order — final result being `db4` itself or `db4`
with the order set to "canceled"/"assembled" plus the single matching
terminal ledger row. -/
theorem partnerConfirmApply_cases (db : DB) (oid : Nat)
    (rejectedItems confirmedItems : List OrderItem) :
    (partnerConfirmApply db oid rejectedItems confirmedItems).2 = db ∨
    ∃ (db4 : DB) (tail : List HistEntry),
      db4.orders = db.orders ∧
      db4.nextOrderId = db.nextOrderId ∧
      itemKeys db4 = itemKeys db ∧
      db4.history = db.history ++ tail ∧
      (∀ e ∈ tail, e.orderId = oid ∧ e.action ≠ HistAction.status_updated ∧
        e.action ≠ HistAction.order_assembled ∧ e.action ≠ HistAction.order_canceled) ∧
      ((partnerConfirmApply db oid rejectedItems confirmedItems).2 = db4 ∨
       (partnerConfirmApply db oid rejectedItems confirmedItems).2 =
         addHist (setStatus db4 oid OrderStatus.canceled) oid HistAction.order_canceled ∨
       (partnerConfirmApply db oid rejectedItems confirmedItems).2 =
         addHist (setStatus db4 oid OrderStatus.assembled) oid HistAction.order_assembled) := by
  unfold partnerConfirmApply
  cases hlast : confirmedItems.getLast? with
  | none => exact Or.inl rfl
  | some witness =>
      dsimp only
      right
      set db1 := addHist db oid HistAction.partner_action with hdb1
      set db2 := if rejectedItems.isEmpty then db1
                 else handleRejectedItems db1 oid rejectedItems with hdb2
      set db3 := confirmedItems.foldl confirmOne db2 with hdb3
      set db4 := addHist db3 oid HistAction.item_confirmed with hdb4
      have h2 : db2.orders = db.orders ∧ db2.nextOrderId = db.nextOrderId ∧
          itemKeys db2 = itemKeys db ∧
          ∃ tail2, db2.history = db.history ++ tail2 ∧
            ∀ e ∈ tail2, e.orderId = oid ∧ e.action ≠ HistAction.status_updated ∧
              e.action ≠ HistAction.order_assembled ∧
              e.action ≠ HistAction.order_canceled := by
        rw [hdb2]
        by_cases hre : rejectedItems.isEmpty = true
        · rw [if_pos hre, hdb1]
          exact ⟨rfl, rfl, rfl, [⟨oid, HistAction.partner_action⟩], rfl,
            by intro e he; rw [List.mem_singleton.mp he]; exact ⟨rfl, by simp, by simp, by simp⟩⟩
        · rw [if_neg hre]
          obtain ⟨g1, g2, g3, ⟨t, ht, hall⟩⟩ := handleRejected_frame oid rejectedItems db1
          refine ⟨g1, g2, g3, ⟨oid, HistAction.partner_action⟩ :: t, ?_, ?_⟩
          · rw [ht, hdb1]
            show db.history ++ [⟨oid, HistAction.partner_action⟩] ++ t = _
            rw [List.append_assoc]
            rfl
          · intro e he
            rcases List.mem_cons.mp he with he' | he'
            · rw [he']
              exact ⟨rfl, by simp, by simp, by simp⟩
            · obtain ⟨ha, hb⟩ := hall e he'
              exact ⟨ha, by rw [hb]; simp, by rw [hb]; simp, by rw [hb]; simp⟩
      obtain ⟨h2o, h2n, h2k, t2, h2h, h2all⟩ := h2
      obtain ⟨f1, f2, f3, f4⟩ := confirmFold_frame confirmedItems db2
      refine ⟨db4, t2 ++ [⟨oid, HistAction.item_confirmed⟩], ?_, ?_, ?_, ?_, ?_, ?_⟩
      · rw [hdb4]
        show db3.orders = db.orders
        rw [hdb3, f1, h2o]
      · rw [hdb4]
        show db3.nextOrderId = db.nextOrderId
        rw [hdb3, f3, h2n]
      · rw [hdb4]
        show itemKeys db3 = itemKeys db
        have : itemKeys db4 = itemKeys db3 := rfl
        rw [hdb3, f4, h2k]
      · rw [hdb4]
        show db3.history ++ [⟨oid, HistAction.item_confirmed⟩] = _
        rw [hdb3, f2, h2h, List.append_assoc]
      · intro e he
        rcases List.mem_append.mp he with he' | he'
        · exact h2all e he'
        · rw [List.mem_singleton.mp he']
          exact ⟨rfl, by simp, by simp, by simp⟩
      · by_cases hrem : (((orderItemsOf db4 oid).filter
            (fun it => it.status ≠ ItemStatus.rejected)).isEmpty) = true
        · rw [if_pos hrem]
          right; left
          rw [saveStatus_eq_setStatus]
        · rw [if_neg hrem]
          by_cases hall : ((orderItemsOf db4 oid).filter
              (fun it => it.status ≠ ItemStatus.rejected)).all
                (fun it => it.shopConfirmed) = true
          · rw [if_pos hall]
            right; right
            rw [saveStatus_eq_setStatus]
          · rw [if_neg hall]
            left
            rfl

/-- Guard shape of `PartnerConfirmOrderView.post`: either an early
return with the store untouched, or the guards pass — the target order
exists, is "confirmed" — and the call is the mutation phase. -/
theorem partnerConfirm_cases (db : DB) (uid : Nat) (oids : Option Nat)
    (rids : List Nat) :
    (partnerConfirmOrder db uid oids rids).2 = db ∨
    ∃ oid order, oids = some oid ∧ findOrder db oid = some order ∧
      order.status = OrderStatus.confirmed ∧
      ∃ rejectedItems confirmedItems : List OrderItem,
        partnerConfirmOrder db uid oids rids =
          partnerConfirmApply db oid rejectedItems confirmedItems := by
  unfold partnerConfirmOrder
  cases oids with
  | none => exact Or.inl rfl
  | some oid =>
      dsimp only
      cases ho : findOrder db oid with
      | none => exact Or.inl rfl
      | some order =>
          dsimp only
          cases hs : findShopByUser db uid with
          | none => exact Or.inl rfl
          | some shop =>
              dsimp only
              by_cases hst : order.status ≠ OrderStatus.confirmed
              · rw [if_pos hst]
                exact Or.inl rfl
              · rw [if_neg hst]
                by_cases hshop : (((orderItemsOf db oid).filter
                    (fun it => itemOfShop db it shop.id)).isEmpty) = true
                · rw [if_pos hshop]
                  exact Or.inl rfl
                · rw [if_neg hshop]
                  by_cases hout : ¬((((orderItemsOf db oid).filter
                      (fun it => itemOfShop db it shop.id)).filter
                        (fun it => it.id ∉ rids)).filter (fun it =>
                          (findProduct db it.productInfoId).any
                            (fun p => p.quantity < it.quantity))).isEmpty = true
                  · rw [if_pos hout]
                    exact Or.inl rfl
                  · rw [if_neg hout]
                    exact Or.inr ⟨oid, order, rfl, ho, not_not.mp hst, _, _, rfl⟩

/-- `itemKeys` determines the uniqueness invariant. -/
theorem uniqueOrderProduct_of_keys_eq {db db' : DB}
    (hk : itemKeys db' = itemKeys db) (h : uniqueOrderProduct db) :
    uniqueOrderProduct db' := by
  unfold uniqueOrderProduct at *
  rw [hk]
  exact h

/-- What a successful per-line serializer run guarantees. -/
theorem validateLine_some (db : DB) (pid : Nat) (qty : Int) (p : ProductInfo)
    (h : validateLine db pid qty = some p) :
    findProduct db pid = some p ∧ p.id = pid ∧ shopActive db p.shopId = true ∧
      1 ≤ qty ∧ qty ≤ p.quantity := by
  unfold validateLine at h
  cases hf : findProduct db pid with
  | none => rw [hf] at h; cases h
  | some q =>
      rw [hf] at h
      dsimp only at h
      by_cases hc : (shopActive db q.shopId && decide (1 ≤ qty)
          && decide (qty ≤ q.quantity)) = true
      · rw [if_pos hc] at h
        injection h with h
        subst h
        simp only [Bool.and_eq_true, decide_eq_true_eq] at hc
        refine ⟨rfl, ?_, hc.1.1, hc.1.2, hc.2⟩
        have := List.find?_some hf
        simpa using this
      · rw [if_neg hc] at h
        cases h

/-- `update_or_create` preserves the unique (order, product) constraint. -/
theorem uniqueOrderProduct_updateOrCreate (db : DB) (oid pid : Nat) (qty : Int)
    (h : uniqueOrderProduct db) :
    uniqueOrderProduct (updateOrCreateItem db oid pid qty) := by
  unfold updateOrCreateItem
  by_cases hb : db.items.any (fun it => it.orderId = oid && it.productInfoId = pid) = true
  · rw [if_pos hb]
    exact uniqueOrderProduct_of_keys_eq
      (itemKeys_map db _ (fun it => by split <;> exact ⟨rfl, rfl⟩)) h
  · rw [if_neg hb]
    unfold uniqueOrderProduct itemKeys at h ⊢
    dsimp only
    rw [List.map_append, List.nodup_append]
    refine ⟨h, List.nodup_singleton _, ?_⟩
    intro a ha hb2
    rw [List.mem_singleton.mp hb2] at ha
    obtain ⟨it, hitmem, hkey⟩ := List.mem_map.mp ha
    apply hb
    apply List.any_eq_true.mpr
    refine ⟨it, hitmem, ?_⟩
    have h1 : it.orderId = oid := congrArg Prod.fst hkey
    have h2 : it.productInfoId = pid := congrArg Prod.snd hkey
    simp [h1, h2]

/-- The basket write loop preserves the unique constraint. -/
theorem uniqueOrderProduct_loop (db0 : DB) (oid : Nat)
    (vs : List (ProductInfo × Int)) (h0 : uniqueOrderProduct db0) :
    ∀ db : DB, uniqueOrderProduct db →
      uniqueOrderProduct (basketAddLoop db0 db oid vs).2 := by
  induction vs with
  | nil => exact fun db h => h
  | cons hd tl ih =>
      intro db h
      obtain ⟨p, q⟩ := hd
      have hred : basketAddLoop db0 db oid ((p, q) :: tl)
          = if p.quantity < q then (Resp.badRequest, db0)
            else basketAddLoop db0 (updateOrCreateItem db oid p.id q) oid tl := rfl
      rw [hred]
      by_cases hc : p.quantity < q
      · rw [if_pos hc]
        exact h0
      · rw [if_neg hc]
        exact ih _ (uniqueOrderProduct_updateOrCreate db oid p.id q h)

/-- C5: for every order no two lines share a product_info — the
constraint is preserved by all five store-mutating operations — and
re-adding a product to a basket overwrites that line's quantity (the
lines of that (order, product_info) pair after the call are exactly the
old ones with quantity replaced, so no second line appears and nothing
is added to the old quantity). -/
theorem unique_order_product_invariant (db : DB) (h : uniqueOrderProduct db) :
    (∀ uid batch, uniqueOrderProduct (basketAdd db uid batch).2) ∧
    (∀ uid ids, uniqueOrderProduct (basketRemove db uid ids).2) ∧
    (∀ uid, uniqueOrderProduct (createOrderFromBasket db uid).2) ∧
    (∀ uid oids cids, uniqueOrderProduct (placeOrder db uid oids cids).2) ∧
    (∀ uid oids rids, uniqueOrderProduct (partnerConfirmOrder db uid oids rids).2) ∧
    (∀ uid o pid qty, findBasket db uid = some o →
      (∃ it ∈ db.items, it.orderId = o.id ∧ it.productInfoId = pid) →
      (basketAdd db uid [(pid, qty)]).1 = Resp.ok →
      (basketAdd db uid [(pid, qty)]).2.items.filter
          (fun it => it.orderId = o.id && it.productInfoId = pid)
        = (db.items.filter
            (fun it => it.orderId = o.id && it.productInfoId = pid)).map
              (fun it => { it with quantity := qty })) := by
  refine ⟨?_, ?_, ?_, ?_, ?_, ?_⟩
  · intro uid batch
    unfold basketAdd
    cases hv : validateBatch db batch with
    | none => exact h
    | some vs =>
        dsimp only
        refine uniqueOrderProduct_loop db (getOrCreateBasket db uid).2 vs h _ ?_
        exact uniqueOrderProduct_of_keys_eq
          (by unfold itemKeys; rw [(getOrCreateBasket_spec db uid).2]) h
  · intro uid ids
    unfold basketRemove
    cases hb : findBasket db uid with
    | none => exact h
    | some basket =>
        dsimp only
        split
        · exact h
        · exact List.Nodup.sublist (List.Sublist.map _ (List.filter_sublist _)) h
  · intro uid
    rcases createOrder_cases db uid with hc | ⟨o, _, hc⟩
    · rw [hc]; exact h
    · rw [hc]; exact h
  · intro uid oids cids
    rcases placeOrder_cases db uid oids cids with hc | ⟨order, cid, _, _, hc⟩
    · rw [hc]; exact h
    · rw [hc]; exact h
  · intro uid oids rids
    rcases partnerConfirm_cases db uid oids rids with hc | ⟨oid, order, _, _, _, rej, conf, hc⟩
    · rw [hc]; exact h
    · rw [hc]
      rcases partnerConfirmApply_cases db oid rej conf with ha | ⟨db4, tail, _, _, hk, _, _, hfin⟩
      · rw [ha]; exact h
      · have h4 : uniqueOrderProduct db4 := uniqueOrderProduct_of_keys_eq hk h
        rcases hfin with hf | hf | hf <;> rw [hf] <;> exact h4
  · intro uid o pid qty hb hex hok
    cases hv : validateBatch db [(pid, qty)] with
    | none =>
        exfalso
        unfold basketAdd at hok
        rw [hv] at hok
        exact Resp.noConfusion hok
    | some vs =>
        have hvl : ∃ p, validateLine db pid qty = some p ∧ vs = [(p, qty)] := by
          unfold validateBatch at hv
          cases hl : validateLine db pid qty with
          | none => rw [hl] at hv; cases hv
          | some p =>
              rw [hl] at hv
              refine ⟨p, rfl, ?_⟩
              injection hv with hv
              exact hv.symm
        obtain ⟨p, hl, rfl⟩ := hvl
        obtain ⟨hf, hpid, _, _, hle⟩ := validateLine_some db pid qty p hl
        have hnotlt : ¬(p.quantity < qty) := not_lt.mpr hle
        have hg : getOrCreateBasket db uid = (db, o.id) := by
          unfold getOrCreateBasket
          rw [hb]
        have hadd : basketAdd db uid [(pid, qty)]
            = (Resp.ok, updateOrCreateItem db o.id p.id qty) := by
          unfold basketAdd
          rw [hv, hg]
          show basketAddLoop db db o.id [(p, qty)] = _
          show (if p.quantity < qty then (Resp.badRequest, db)
            else basketAddLoop db (updateOrCreateItem db o.id p.id qty) o.id []) = _
          rw [if_neg hnotlt]
          rfl
        rw [hadd]
        have hany : db.items.any
            (fun it => it.orderId = o.id && it.productInfoId = p.id) = true := by
          obtain ⟨it, hm, h1, h2⟩ := hex
          exact List.any_eq_true.mpr ⟨it, hm, by simp [h1, h2, hpid]⟩
        show (updateOrCreateItem db o.id p.id qty).items.filter _ = _
        unfold updateOrCreateItem
        rw [if_pos hany]
        dsimp only
        rw [List.filter_map]
        have hcomp : ((fun it : OrderItem => it.orderId = o.id && it.productInfoId = pid) ∘
            (fun it => if it.orderId = o.id && it.productInfoId = p.id
              then { it with quantity := qty } else it))
            = fun it : OrderItem => it.orderId = o.id && it.productInfoId = pid := by
          funext x
          by_cases hx : (x.orderId = o.id && x.productInfoId = p.id) = true
          · simp only [Function.comp, if_pos hx]
          · simp only [Function.comp, if_neg hx]
        rw [hcomp]
        apply List.map_congr_left
        intro x hx
        have := (List.mem_filter.mp hx).2
        simp only [Bool.and_eq_true, decide_eq_true_eq] at this
        rw [if_pos]
        simp [this.1, this.2, hpid]

/-- Witness for `unique_order_product_invariant` at concrete inputs:
re-adding product 1 (already line 5 of basket 1) with quantity 5
overwrites the line. -/
theorem unique_order_product_invariant_witness :
    uniqueOrderProduct (basketAdd dbBasketOne 1 [(1, 5)]).2 ∧
    (basketAdd dbBasketOne 1 [(1, 5)]).2.items.filter
        (fun it => it.orderId = 1 && it.productInfoId = 1)
      = (dbBasketOne.items.filter
          (fun it => it.orderId = 1 && it.productInfoId = 1)).map
            (fun it => { it with quantity := 5 }) := by
  have h : uniqueOrderProduct dbBasketOne := by
    unfold uniqueOrderProduct itemKeys
    decide
  refine ⟨(unique_order_product_invariant dbBasketOne h).1 1 [(1, 5)], ?_⟩
  exact (unique_order_product_invariant dbBasketOne h).2.2.2.2.2 1
    ⟨1, 1, OrderStatus.basket, none⟩ 1 5 (by decide)
    ⟨⟨5, 1, 1, 2, false, ItemStatus.pending⟩, by decide, rfl, rfl⟩ (by decide)

/-- Orders-table transport for the one-basket invariant. -/
theorem basketNodup_of_orders_eq {db db' : DB} (ho : db'.orders = db.orders)
    (h : basketNodup db) : basketNodup db' := by
  unfold basketNodup at *
  rw [ho]
  exact h

/-- A rewrite keeping every element it lets through the filter verbatim
only shrinks the filtered list. -/
theorem filter_map_sublist {α : Type _} (f : α → α) (p : α → Bool) :
    ∀ l : List α, (∀ x ∈ l, p (f x) = true → f x = x) →
      ((l.map f).filter p).Sublist (l.filter p) := by
  intro l
  induction l with
  | nil => intro _; simp
  | cons x xs ih =>
      intro hf
      have hrest := ih (fun y hy => hf y (List.mem_cons_of_mem _ hy))
      rw [List.map_cons, List.filter_cons, List.filter_cons]
      by_cases hx : p (f x) = true
      · have hfx := hf x (List.mem_cons_self _ _) hx
        rw [if_pos hx, hfx]
        rw [hfx] at hx
        rw [if_pos hx]
        exact List.Sublist.cons₂ x hrest
      · rw [if_neg hx]
        by_cases hpx : p x = true
        · rw [if_pos hpx]
          exact hrest.trans (List.sublist_cons_self x _)
        · rw [if_neg hpx]
          exact hrest

/-- A rewrite of the order table that keeps every basket row it outputs
verbatim preserves the one-basket invariant. -/
theorem basketNodup_mapOrders (db : DB) (f : Order → Order)
    (hf : ∀ x ∈ db.orders, (f x).status = OrderStatus.basket → f x = x)
    (h : basketNodup db) :
    basketNodup { db with orders := db.orders.map f } := by
  unfold basketNodup at h ⊢
  dsimp only
  refine List.Nodup.sublist (List.Sublist.map _ ?_) h
  exact filter_map_sublist f _ db.orders (fun x hx hpx => hf x hx (by simpa using hpx))

/-- `get_or_create` of the basket preserves the one-basket invariant:
an existing basket is reused, and a new one is made only for a user who
had none. -/
theorem basketNodup_getOrCreate (db : DB) (uid : Nat) (h : basketNodup db) :
    basketNodup (getOrCreateBasket db uid).1 := by
  unfold getOrCreateBasket
  cases hb : findBasket db uid with
  | some o => exact h
  | none =>
      dsimp only
      have hnone := hb
      unfold findBasket at hnone
      rw [List.find?_eq_none] at hnone
      unfold basketNodup at h ⊢
      show (((db.orders ++ [(⟨db.nextOrderId, uid, OrderStatus.basket, none⟩ : Order)]).filter
        (fun o : Order => o.status = OrderStatus.basket)).map (fun o : Order => o.userId)).Nodup
      rw [List.filter_append, List.map_append, List.nodup_append]
      refine ⟨h, by simp, ?_⟩
      intro a ha hb2
      simp only [List.filter_cons, List.filter_nil, decide_eq_true_eq] at hb2
      rw [if_pos (by simp)] at hb2
      simp only [List.map_cons, List.map_nil, List.mem_singleton] at hb2
      obtain ⟨o, homem, ho⟩ := List.mem_map.mp ha
      have hbask := (List.mem_filter.mp homem).2
      simp only [decide_eq_true_eq] at hbask
      refine hnone o (List.mem_filter.mp homem).1 ?_
      simp [ho, hb2, hbask]

/-- C6: at most one basket order per user, preserved by every
operation; when a basket already exists, add-items reuses it and the
order table is untouched. -/
theorem single_basket_invariant (db : DB) (h : basketNodup db) :
    (∀ uid batch, basketNodup (basketAdd db uid batch).2 ∧
      (findBasket db uid ≠ none →
        (basketAdd db uid batch).2.orders = db.orders)) ∧
    (∀ uid ids, basketNodup (basketRemove db uid ids).2) ∧
    (∀ uid, basketNodup (createOrderFromBasket db uid).2) ∧
    (∀ uid oids cids, basketNodup (placeOrder db uid oids cids).2) ∧
    (∀ uid oids rids, basketNodup (partnerConfirmOrder db uid oids rids).2) := by
  refine ⟨?_, ?_, ?_, ?_, ?_⟩
  · intro uid batch
    constructor
    · unfold basketAdd
      cases hv : validateBatch db batch with
      | none => exact h
      | some vs =>
          dsimp only
          rcases basketAddLoop_frame db (getOrCreateBasket db uid).2 vs
            (getOrCreateBasket db uid).1 with hfr | ⟨ho, _, _⟩
          · rw [hfr]
            exact h
          · exact basketNodup_of_orders_eq ho (basketNodup_getOrCreate db uid h)
    · intro hex
      unfold basketAdd
      cases hv : validateBatch db batch with
      | none => rfl
      | some vs =>
          dsimp only
          have hg : (getOrCreateBasket db uid).1 = db := by
            unfold getOrCreateBasket
            cases hb : findBasket db uid with
            | some o => rfl
            | none => exact absurd hb hex
          rcases basketAddLoop_frame db (getOrCreateBasket db uid).2 vs
            (getOrCreateBasket db uid).1 with hfr | ⟨ho, _, _⟩
          · rw [hfr]
          · rw [ho, hg]
  · intro uid ids
    exact basketNodup_of_orders_eq (basketRemove_frame db uid ids).1 h
  · intro uid
    rcases createOrder_cases db uid with hc | ⟨o, _, hc⟩
    · rw [hc]; exact h
    · rw [hc]
      refine basketNodup_mapOrders db _ (fun x hx hpx => ?_) h
      by_cases hid : x.id = o.id
      · rw [if_pos hid] at hpx
        cases hpx
      · rw [if_neg hid]
  · intro uid oids cids
    rcases placeOrder_cases db uid oids cids with hc | ⟨order, cid, _, _, hc⟩
    · rw [hc]; exact h
    · rw [hc]
      refine basketNodup_mapOrders db _ (fun x hx hpx => ?_) h
      by_cases hid : x.id = order.id
      · rw [if_pos hid] at hpx
        cases hpx
      · rw [if_neg hid]
  · intro uid oids rids
    rcases partnerConfirm_cases db uid oids rids with hc | ⟨oid, order, _, _, _, rej, conf, hc⟩
    · rw [hc]; exact h
    · rw [hc]
      rcases partnerConfirmApply_cases db oid rej conf with ha | ⟨db4, tail, ho, _, _, _, _, hfin⟩
      · rw [ha]; exact h
      · have h4 : basketNodup db4 := basketNodup_of_orders_eq ho h
        rcases hfin with hf | hf | hf
        · rw [hf]; exact h4
        · rw [hf]
          refine @basketNodup_of_orders_eq (setStatus db4 oid OrderStatus.canceled) _ rfl ?_
          refine basketNodup_mapOrders db4 _ (fun x hx hpx => ?_) h4
          by_cases hid : x.id = oid
          · rw [if_pos hid] at hpx
            cases hpx
          · rw [if_neg hid]
        · rw [hf]
          refine @basketNodup_of_orders_eq (setStatus db4 oid OrderStatus.assembled) _ rfl ?_
          refine basketNodup_mapOrders db4 _ (fun x hx hpx => ?_) h4
          by_cases hid : x.id = oid
          · rw [if_pos hid] at hpx
            cases hpx
          · rw [if_neg hid]

/-- Witness for `single_basket_invariant` at concrete inputs. -/
theorem single_basket_invariant_witness :
    basketNodup (basketAdd dbBasketOne 1 [(1, 5)]).2 ∧
    (basketAdd dbBasketOne 1 [(1, 5)]).2.orders = dbBasketOne.orders := by
  have h : basketNodup dbBasketOne := by
    unfold basketNodup
    decide
  have hc := (single_basket_invariant dbBasketOne h).1 1 [(1, 5)]
  exact ⟨hc.1, hc.2 (by decide)⟩

/-- Bool test for the `status_updated` ledger action. -/
def isStatusUpdated (a : HistAction) : Bool := a = HistAction.status_updated

/-- Bool test for the two terminal ledger actions. -/
def isTerminalEntry (a : HistAction) : Bool :=
  a = HistAction.order_assembled || a = HistAction.order_canceled

/-- Number of ledger rows of order `oid` whose action satisfies `P`. -/
def countAct (db : DB) (oid : Nat) (P : HistAction → Bool) : Nat :=
  (db.history.filter (fun e => e.orderId = oid && P e.action)).length

/-- Terminal order statuses (assembled / canceled). -/
def isTerminalStatus (s : OrderStatus) : Bool :=
  s = OrderStatus.assembled || s = OrderStatus.canceled

/-- Scenario E ledger invariant: every order has exactly one
`status_updated` row, and exactly one terminal row iff its status is
terminal (so never a duplicate terminal entry, and the ledger never
diverges from the stored status). -/
def ledgerInv (db : DB) : Prop :=
  ∀ o ∈ db.orders,
    countAct db o.id isStatusUpdated = 1 ∧
    countAct db o.id isTerminalEntry
      = (if isTerminalStatus o.status = true then 1 else 0)

/-- Store well-formedness: order ids are unique and below the id
allocator, and every ledger row references an existing order. -/
def ordersWellFormed (db : DB) : Prop :=
  (db.orders.map (fun o => o.id)).Nodup ∧
  (∀ o ∈ db.orders, o.id < db.nextOrderId) ∧
  (∀ e ∈ db.history, ∃ o ∈ db.orders, e.orderId = o.id)

/-- Appending one ledger row changes exactly the matching count. -/
theorem countAct_addHist (db : DB) (oid' oid : Nat) (a : HistAction)
    (P : HistAction → Bool) :
    countAct (addHist db oid' a) oid P
      = countAct db oid P + (if oid' = oid ∧ P a = true then 1 else 0) := by
  unfold countAct addHist
  dsimp only
  rw [List.filter_append, List.length_append]
  congr 1
  by_cases h1 : oid' = oid ∧ P a = true
  · rw [if_pos h1]
    simp [List.filter_cons, h1.1, h1.2]
  · rw [if_neg h1]
    rcases not_and_or.mp h1 with h2 | h2 <;> simp [List.filter_cons, h2]

/-- Counting ignores everything but the ledger. -/
theorem countAct_congr {db db' : DB} (hh : db'.history = db.history)
    (oid : Nat) (P : HistAction → Bool) :
    countAct db' oid P = countAct db oid P := by
  unfold countAct
  rw [hh]

/-- No ledger row references `k`, so the count is zero. -/
theorem countAct_eq_zero (db : DB) (k : Nat) (P : HistAction → Bool)
    (h : ∀ e ∈ db.history, e.orderId ≠ k) :
    countAct db k P = 0 := by
  unfold countAct
  rw [List.length_eq_zero, List.filter_eq_nil_iff]
  intro e he
  simp [h e he]

/-- The ledger invariant transports along stores with the same orders
and ledger. -/
theorem ledgerInv_congr {db db' : DB} (ho : db'.orders = db.orders)
    (hh : db'.history = db.history) (h : ledgerInv db) : ledgerInv db' := by
  intro o hm
  rw [ho] at hm
  have hc := h o hm
  rw [countAct_congr hh, countAct_congr hh]
  exact hc

/-- Well-formedness transports along stores with the same orders,
ledger and allocator. -/
theorem wellFormed_congr {db db' : DB} (ho : db'.orders = db.orders)
    (hh : db'.history = db.history) (hn : db'.nextOrderId = db.nextOrderId)
    (h : ordersWellFormed db) : ordersWellFormed db' := by
  obtain ⟨w1, w2, w3⟩ := h
  refine ⟨?_, ?_, ?_⟩
  · rw [ho]
    exact w1
  · intro o hm
    rw [ho] at hm
    rw [hn]
    exact w2 o hm
  · intro e he
    rw [hh] at he
    rw [ho]
    exact w3 e he

/-- Rewriting the order table through an id-preserving update targeted
at `oid` that writes a non-terminal status over a non-terminal status
preserves well-formedness and the ledger invariant. -/
theorem ledger_retarget (db : DB) (oid : Nat) (s : OrderStatus)
    (f : Order → Order)
    (hfid : ∀ x, (f x).id = x.id)
    (hfoth : ∀ x, x.id ≠ oid → f x = x)
    (hfst : ∀ x, x.id = oid → (f x).status = s)
    (o₀ : Order) (hmem : o₀ ∈ db.orders) (hid : o₀.id = oid)
    (hterm : isTerminalStatus o₀.status = false)
    (hterm2 : isTerminalStatus s = false)
    (hwf : ordersWellFormed db) (hinv : ledgerInv db) :
    ordersWellFormed { db with orders := db.orders.map f } ∧
    ledgerInv { db with orders := db.orders.map f } := by
  obtain ⟨w1, w2, w3⟩ := hwf
  have hids : (db.orders.map f).map (fun o => o.id) = db.orders.map (fun o => o.id) := by
    rw [List.map_map]
    exact List.map_congr_left (fun x _ => hfid x)
  refine ⟨⟨?_, ?_, ?_⟩, ?_⟩
  · show ((db.orders.map f).map (fun o => o.id)).Nodup
    rw [hids]
    exact w1
  · intro o hm
    obtain ⟨x, hx, rfl⟩ := List.mem_map.mp hm
    show (f x).id < db.nextOrderId
    rw [hfid]
    exact w2 x hx
  · intro e he
    obtain ⟨o, hom, hoe⟩ := w3 e he
    exact ⟨f o, List.mem_map.mpr ⟨o, hom, rfl⟩, by rw [hfid o]; exact hoe⟩
  · intro o hm
    dsimp only at hm
    obtain ⟨x, hx, rfl⟩ := List.mem_map.mp hm
    have hcounts := hinv x hx
    by_cases hxid : x.id = oid
    · have hxo : x = o₀ := List.inj_on_of_nodup_map w1 hx hmem (by rw [hxid, hid])
      constructor
      · show countAct db (f x).id isStatusUpdated = 1
        rw [hfid]
        exact hcounts.1
      · show countAct db (f x).id isTerminalEntry
          = if isTerminalStatus (f x).status = true then 1 else 0
        rw [hfid x, hfst x hxid, hterm2]
        have h0 := hcounts.2
        rw [hxo] at h0 ⊢
        rw [hterm] at h0
        exact h0
    · rw [hfoth x hxid]
      exact ⟨hcounts.1, hcounts.2⟩

/-- Setting a non-terminal-status order to "canceled"/"assembled" while
appending the single matching terminal row preserves well-formedness and
the ledger invariant. -/
theorem ledger_terminate (db : DB) (oid : Nat) (s : OrderStatus) (a : HistAction)
    (hsa : (s = OrderStatus.canceled ∧ a = HistAction.order_canceled) ∨
           (s = OrderStatus.assembled ∧ a = HistAction.order_assembled))
    (o₀ : Order) (hmem : o₀ ∈ db.orders) (hid : o₀.id = oid)
    (hterm : isTerminalStatus o₀.status = false)
    (hwf : ordersWellFormed db) (hinv : ledgerInv db) :
    ordersWellFormed (addHist (setStatus db oid s) oid a) ∧
    ledgerInv (addHist (setStatus db oid s) oid a) := by
  obtain ⟨w1, w2, w3⟩ := hwf
  have hids : ((setStatus db oid s).orders).map (fun o => o.id)
      = db.orders.map (fun o => o.id) := by
    show (db.orders.map (fun x => if x.id = oid then { x with status := s } else x)).map
      (fun o => o.id) = db.orders.map (fun o => o.id)
    rw [List.map_map]
    exact List.map_congr_left (fun x _ => statusUpd_id oid s x)
  constructor
  · refine ⟨?_, ?_, ?_⟩
    · show ((setStatus db oid s).orders.map (fun o => o.id)).Nodup
      rw [hids]
      exact w1
    · intro o hm
      obtain ⟨x, hx, rfl⟩ := List.mem_map.mp hm
      show (if x.id = oid then { x with status := s } else x).id < db.nextOrderId
      rw [statusUpd_id]
      exact w2 x hx
    · intro e he
      have hhist : (addHist (setStatus db oid s) oid a).history
          = db.history ++ [⟨oid, a⟩] := rfl
      rw [hhist] at he
      rcases List.mem_append.mp he with he' | he'
      · obtain ⟨o, hom, hoe⟩ := w3 e he'
        refine ⟨if o.id = oid then { o with status := s } else o,
          List.mem_map.mpr ⟨o, hom, rfl⟩, ?_⟩
        rw [statusUpd_id]
        exact hoe
      · rw [List.mem_singleton.mp he']
        refine ⟨if o₀.id = oid then { o₀ with status := s } else o₀,
          List.mem_map.mpr ⟨o₀, hmem, rfl⟩, ?_⟩
        rw [statusUpd_id]
        exact hid.symm
  · intro o hm
    have horders : (addHist (setStatus db oid s) oid a).orders
        = db.orders.map (fun x => if x.id = oid then { x with status := s } else x) := rfl
    rw [horders] at hm
    obtain ⟨x, hx, rfl⟩ := List.mem_map.mp hm
    have hcounts := hinv x hx
    have hSUa : isStatusUpdated a = false := by
      rcases hsa with ⟨_, ha⟩ | ⟨_, ha⟩ <;> rw [ha] <;> rfl
    have hTa : isTerminalEntry a = true := by
      rcases hsa with ⟨_, ha⟩ | ⟨_, ha⟩ <;> rw [ha] <;> rfl
    have hcadd : ∀ k P, countAct (addHist (setStatus db oid s) oid a) k P
        = countAct db k P + (if oid = k ∧ P a = true then 1 else 0) := by
      intro k P
      rw [countAct_addHist]
      congr 1
    by_cases hxid : x.id = oid
    · have hxo : x = o₀ := List.inj_on_of_nodup_map w1 hx hmem (by rw [hxid, hid])
      have hido : (if x.id = oid then { x with status := s } else x) = { x with status := s } :=
        if_pos hxid
      rw [hido]
      constructor
      · show countAct _ x.id isStatusUpdated = 1
        rw [hcadd, if_neg (by simp [hSUa])]
        exact hcounts.1
      · show countAct _ x.id isTerminalEntry
          = if isTerminalStatus s = true then 1 else 0
        have hst : isTerminalStatus s = true := by
          rcases hsa with ⟨hs', _⟩ | ⟨hs', _⟩ <;> rw [hs'] <;> rfl
        rw [hcadd, if_pos ⟨hxid.symm, hTa⟩, hst, if_pos rfl]
        have h0 := hcounts.2
        rw [hxo] at h0
        rw [hterm] at h0
        rw [hxo]
        simp only [if_neg (by simp : ¬(false = true))] at h0
        rw [h0]
    · have hido : (if x.id = oid then { x with status := s } else x) = x := if_neg hxid
      rw [hido]
      refine ⟨?_, ?_⟩
      · rw [hcadd, if_neg (fun hk => hxid hk.1.symm)]
        exact hcounts.1
      · rw [hcadd, if_neg (fun hk => hxid hk.1.symm)]
        exact hcounts.2

/-- `get_or_create` of the basket preserves well-formedness and the
ledger invariant: creation allocates a fresh id, records exactly one
`status_updated` row for it, and the fresh order is non-terminal. -/
theorem ledger_getOrCreate (db : DB) (uid : Nat)
    (hwf : ordersWellFormed db) (hinv : ledgerInv db) :
    ordersWellFormed (getOrCreateBasket db uid).1 ∧
    ledgerInv (getOrCreateBasket db uid).1 := by
  unfold getOrCreateBasket
  cases hb : findBasket db uid with
  | some o => exact ⟨hwf, hinv⟩
  | none =>
      dsimp only
      obtain ⟨w1, w2, w3⟩ := hwf
      have hfresh : ∀ e ∈ db.history, e.orderId ≠ db.nextOrderId := by
        intro e he heq
        obtain ⟨o, hom, hoe⟩ := w3 e he
        have hlt := w2 o hom
        rw [← hoe, heq] at hlt
        exact Nat.lt_irrefl _ hlt
      have hres : (logOrderStatusChange { db with
          orders := db.orders ++ [⟨db.nextOrderId, uid, OrderStatus.basket, none⟩],
          nextOrderId := db.nextOrderId + 1 } db.nextOrderId OrderStatus.basket true)
          = { db with
            orders := db.orders ++ [⟨db.nextOrderId, uid, OrderStatus.basket, none⟩],
            nextOrderId := db.nextOrderId + 1,
            history := db.history ++ [⟨db.nextOrderId, HistAction.status_updated⟩] } := rfl
      rw [hres]
      constructor
      · refine ⟨?_, ?_, ?_⟩
        · show ((db.orders ++ [(⟨db.nextOrderId, uid, OrderStatus.basket, none⟩ : Order)]).map
            (fun o => o.id)).Nodup
          rw [List.map_append, List.nodup_append]
          refine ⟨w1, by simp, ?_⟩
          intro a ha ha2
          simp only [List.map_cons, List.map_nil, List.mem_singleton] at ha2
          obtain ⟨o, hom, hoe⟩ := List.mem_map.mp ha
          have hlt := w2 o hom
          rw [hoe, ha2] at hlt
          exact Nat.lt_irrefl _ hlt
        · intro o hm
          rcases List.mem_append.mp hm with hm' | hm'
          · exact Nat.lt_succ_of_lt (w2 o hm')
          · rw [List.mem_singleton.mp hm']
            exact Nat.lt_succ_self _
        · intro e he
          rcases List.mem_append.mp he with he' | he'
          · obtain ⟨o, hom, hoe⟩ := w3 e he'
            exact ⟨o, List.mem_append.mpr (Or.inl hom), hoe⟩
          · rw [List.mem_singleton.mp he']
            exact ⟨⟨db.nextOrderId, uid, OrderStatus.basket, none⟩,
              List.mem_append.mpr (Or.inr (List.mem_singleton.mpr rfl)), rfl⟩
      · intro o hm
        have hcadd : ∀ k P, countAct { db with
            orders := db.orders ++ [⟨db.nextOrderId, uid, OrderStatus.basket, none⟩],
            nextOrderId := db.nextOrderId + 1,
            history := db.history ++ [⟨db.nextOrderId, HistAction.status_updated⟩] } k P
            = countAct db k P
              + (if db.nextOrderId = k ∧ P HistAction.status_updated = true
                 then 1 else 0) := by
          intro k P
          have : ({ db with
              orders := db.orders ++ [⟨db.nextOrderId, uid, OrderStatus.basket, none⟩],
              nextOrderId := db.nextOrderId + 1,
              history := db.history ++ [⟨db.nextOrderId, HistAction.status_updated⟩] } : DB)
              = addHist { db with
                orders := db.orders ++ [⟨db.nextOrderId, uid, OrderStatus.basket, none⟩],
                nextOrderId := db.nextOrderId + 1 } db.nextOrderId
                  HistAction.status_updated := rfl
          rw [this, countAct_addHist]
          congr 1
        rcases List.mem_append.mp hm with hm' | hm'
        · have hcounts := hinv o hm'
          have hne : db.nextOrderId ≠ o.id := by
            intro heq
            have hlt := w2 o hm'
            rw [← heq] at hlt
            exact Nat.lt_irrefl _ hlt
          rw [hcadd, hcadd, if_neg (fun hk => hne hk.1), if_neg (fun hk => hne hk.1)]
          exact ⟨by rw [Nat.add_zero]; exact hcounts.1,
            by rw [Nat.add_zero]; exact hcounts.2⟩
        · rw [List.mem_singleton.mp hm']
          have hzero : ∀ P, countAct db db.nextOrderId P = 0 :=
            fun P => countAct_eq_zero db db.nextOrderId P hfresh
          constructor
          · rw [hcadd, hzero, if_pos ⟨rfl, rfl⟩]
          · rw [hcadd, hzero, if_neg (fun hk => by exact absurd hk.2 (by decide))]
            rfl

/-- C9: creation writes exactly one `status_updated` row; an order
reaches "assembled"/"canceled" together with exactly one matching
terminal row and no operation ever duplicates it; every operation
preserves the invariant together with store well-formedness (each
ledger write being part of the same atomic operation as the state
change it records). -/
theorem ledger_invariant_preserved (db : DB)
    (hwf : ordersWellFormed db) (hinv : ledgerInv db) :
    (∀ uid batch, ordersWellFormed (basketAdd db uid batch).2 ∧
      ledgerInv (basketAdd db uid batch).2) ∧
    (∀ uid ids, ordersWellFormed (basketRemove db uid ids).2 ∧
      ledgerInv (basketRemove db uid ids).2) ∧
    (∀ uid, ordersWellFormed (createOrderFromBasket db uid).2 ∧
      ledgerInv (createOrderFromBasket db uid).2) ∧
    (∀ uid oids cids, ordersWellFormed (placeOrder db uid oids cids).2 ∧
      ledgerInv (placeOrder db uid oids cids).2) ∧
    (∀ uid oids rids, ordersWellFormed (partnerConfirmOrder db uid oids rids).2 ∧
      ledgerInv (partnerConfirmOrder db uid oids rids).2) := by
  refine ⟨?_, ?_, ?_, ?_, ?_⟩
  · intro uid batch
    unfold basketAdd
    cases hv : validateBatch db batch with
    | none => exact ⟨hwf, hinv⟩
    | some vs =>
        dsimp only
        rcases basketAddLoop_frame db (getOrCreateBasket db uid).2 vs
          (getOrCreateBasket db uid).1 with hfr | ⟨ho, hh, hn⟩
        · rw [hfr]
          exact ⟨hwf, hinv⟩
        · obtain ⟨hwf1, hinv1⟩ := ledger_getOrCreate db uid hwf hinv
          exact ⟨wellFormed_congr ho hh hn hwf1, ledgerInv_congr ho hh hinv1⟩
  · intro uid ids
    obtain ⟨ho, hh, hn⟩ := basketRemove_frame db uid ids
    exact ⟨wellFormed_congr ho hh hn hwf, ledgerInv_congr ho hh hinv⟩
  · intro uid
    rcases createOrder_cases db uid with hc | ⟨o, hb, hc⟩
    · rw [hc]
      exact ⟨hwf, hinv⟩
    · rw [hc]
      obtain ⟨homem, _, hobasket⟩ := findBasket_props db uid o hb
      exact ledger_retarget db o.id OrderStatus.new _
        (fun x => statusUpd_id o.id OrderStatus.new x)
        (fun x hx => if_neg hx)
        (fun x hx => by rw [if_pos hx])
        o homem rfl (by rw [hobasket]; rfl) (by rfl) hwf hinv
  · intro uid oids cids
    rcases placeOrder_cases db uid oids cids with hc | ⟨order, cid, homem, hostat, hc⟩
    · rw [hc]
      exact ⟨hwf, hinv⟩
    · rw [hc]
      exact ledger_retarget db order.id OrderStatus.confirmed _
        (fun x => by split <;> rfl)
        (fun x hx => if_neg hx)
        (fun x hx => by rw [if_pos hx])
        order homem rfl (by rw [hostat]; rfl) (by rfl) hwf hinv
  · intro uid oids rids
    rcases partnerConfirm_cases db uid oids rids with hc | ⟨oid, order, _, ho, hst, rej, conf, hc⟩
    · rw [hc]
      exact ⟨hwf, hinv⟩
    · rw [hc]
      have homem : order ∈ db.orders := List.mem_of_find?_eq_some ho
      have hoid : order.id = oid := by
        have := List.find?_some ho
        simpa using this
      rcases partnerConfirmApply_cases db oid rej conf
        with ha | ⟨db4, tail, ho4, hn4, _, hh4, htail, hfin⟩
      · rw [ha]
        exact ⟨hwf, hinv⟩
      · obtain ⟨w1, w2, w3⟩ := hwf
        have hwf4 : ordersWellFormed db4 := by
          refine ⟨by rw [ho4]; exact w1, ?_, ?_⟩
          · intro o hm
            rw [ho4] at hm
            rw [hn4]
            exact w2 o hm
          · intro e he
            rw [hh4] at he
            rcases List.mem_append.mp he with he' | he'
            · obtain ⟨o, hom, hoe⟩ := w3 e he'
              exact ⟨o, ho4 ▸ hom, hoe⟩
            · obtain ⟨heo, _⟩ := htail e he'
              exact ⟨order, ho4 ▸ homem, by rw [heo, hoid]⟩
        have hcount4 : ∀ k P,
            (∀ act : HistAction, act ≠ HistAction.status_updated →
              act ≠ HistAction.order_assembled →
                act ≠ HistAction.order_canceled → P act = false) →
            countAct db4 k P = countAct db k P := by
          intro k P hP
          unfold countAct
          rw [hh4, List.filter_append, List.length_append]
          have htz : (tail.filter (fun e => e.orderId = k && P e.action)).length = 0 := by
            rw [List.length_eq_zero, List.filter_eq_nil_iff]
            intro e he
            obtain ⟨_, h1, h2, h3⟩ := htail e he
            simp [hP e.action h1 h2 h3]
          rw [htz, Nat.add_zero]
        have hPsu : ∀ act : HistAction, act ≠ HistAction.status_updated →
            act ≠ HistAction.order_assembled → act ≠ HistAction.order_canceled →
            isStatusUpdated act = false := by
          intro act h1 _ _
          unfold isStatusUpdated
          simp [h1]
        have hPt : ∀ act : HistAction, act ≠ HistAction.status_updated →
            act ≠ HistAction.order_assembled → act ≠ HistAction.order_canceled →
            isTerminalEntry act = false := by
          intro act _ h2 h3
          unfold isTerminalEntry
          simp [h2, h3]
        have hinv4 : ledgerInv db4 := by
          intro o hm
          rw [ho4] at hm
          have hcounts := hinv o hm
          rw [hcount4 _ _ hPsu, hcount4 _ _ hPt]
          exact hcounts
        have hterm0 : isTerminalStatus order.status = false := by
          rw [hst]
          rfl
        rcases hfin with hf | hf | hf
        · rw [hf]
          exact ⟨hwf4, hinv4⟩
        · rw [hf]
          exact ledger_terminate db4 oid OrderStatus.canceled HistAction.order_canceled
            (Or.inl ⟨rfl, rfl⟩) order (ho4 ▸ homem) hoid hterm0 hwf4 hinv4
        · rw [hf]
          exact ledger_terminate db4 oid OrderStatus.assembled HistAction.order_assembled
            (Or.inr ⟨rfl, rfl⟩) order (ho4 ▸ homem) hoid hterm0 hwf4 hinv4

/-- Witness for `ledger_invariant_preserved` at a concrete input: the
two-shop confirmed order, after shop user 1 confirms its line. -/
theorem ledger_invariant_preserved_witness :
    ordersWellFormed (partnerConfirmOrder dbTwoShops 1 (some 1) []).2 ∧
    ledgerInv (partnerConfirmOrder dbTwoShops 1 (some 1) []).2 := by
  have hwf : ordersWellFormed dbTwoShops := by
    unfold ordersWellFormed
    decide
  have hinv : ledgerInv dbTwoShops := by
    unfold ledgerInv countAct
    decide
  exact (ledger_invariant_preserved dbTwoShops hwf hinv).2.2.2.2 1 (some 1) []
